import Mathlib

/-! Calendar widget (`src/app.js`): month grid, event store, navigation.

A shallow embedding of `CalendarEvent` and `CalendarApp` from `src/app.js`.

The program is written against the JavaScript `Date` object.  `Date` is part of
the language runtime, so its day arithmetic is embedded here from the
ECMAScript definitions the program relies on (`DayFromYear`, `YearFromTime`,
`MonthFromTime`, `DateFromTime`, `WeekDay`, `MakeDay`, and the two-digit-year
rule of the `Date` constructor).

The first sections read every `Date` on its local time line, as a local day
number since 1970-01-01 and a time within the day.  That reading is exact where
the offset of the time zone from UTC does not change and every date involved is
within the range a `Date` can represent.  The section on dates in a time zone
embeds the constructor, the getters and the loop of `renderCalendar` once more
for an arbitrary time zone and the finite range of time values; the results on
the dates of the grid are stated there.
-/

namespace Calendar

/-! ## ECMAScript day arithmetic -/

/-- ECMAScript `DaysInYear(y)`. -/
def DaysInYear (y : Int) : Int :=
  if y % 4 ≠ 0 then 365
  else if y % 100 ≠ 0 then 366
  else if y % 400 ≠ 0 then 365
  else 366

/-- ECMAScript `DayFromYear(y)`: the day number of the first day of year `y`. -/
def DayFromYear (y : Int) : Int :=
  365 * (y - 1970) + (y - 1969) / 4 - (y - 1901) / 100 + (y - 1601) / 400

/-- ECMAScript `YearFromTime`, on a day number: the largest `y` with
`DayFromYear y ≤ t`.  It is computed from the estimate `1970 + 400 t / 146097`
(a year has 146097 / 400 days on average), which is off by at most one. -/
def YearFromTime (t : Int) : Int :=
  let y := 1970 + (400 * t) / 146097
  if t < DayFromYear y then y - 1
  else if DayFromYear (y + 1) ≤ t then y + 1
  else y

/-- ECMAScript `InLeapYear`, as the number 0 or 1, for the year `y`. -/
def leapDays (y : Int) : Int := if DaysInYear y = 366 then 1 else 0

/-- ECMAScript `DayWithinYear(t)`. -/
def DayWithinYear (t : Int) : Int := t - DayFromYear (YearFromTime t)

/-- ECMAScript `InLeapYear(t)`. -/
def InLeapYear (t : Int) : Int := leapDays (YearFromTime t)

/-- Month table of ECMAScript `MonthFromTime`: the month index 0..11 of day `d`
within a year, `l` being 1 in a leap year and 0 otherwise. -/
def monthOfDay (d l : Int) : Int :=
  if d < 31 then 0
  else if d < 59 + l then 1
  else if d < 90 + l then 2
  else if d < 120 + l then 3
  else if d < 151 + l then 4
  else if d < 181 + l then 5
  else if d < 212 + l then 6
  else if d < 243 + l then 7
  else if d < 273 + l then 8
  else if d < 304 + l then 9
  else if d < 334 + l then 10
  else 11

/-- ECMAScript `MonthFromTime(t)`: month index 0..11. -/
def MonthFromTime (t : Int) : Int := monthOfDay (DayWithinYear t) (InLeapYear t)

/-- Day within the year of the first day of month `m` (0..11), `l` being 1 in a
leap year and 0 otherwise; the table of ECMAScript `DateFromTime`. -/
def monthStart (m : Int) (l : Int) : Int :=
  if m = 0 then 0
  else if m = 1 then 31
  else if m = 2 then 59 + l
  else if m = 3 then 90 + l
  else if m = 4 then 120 + l
  else if m = 5 then 151 + l
  else if m = 6 then 181 + l
  else if m = 7 then 212 + l
  else if m = 8 then 243 + l
  else if m = 9 then 273 + l
  else if m = 10 then 304 + l
  else 334 + l

/-- ECMAScript `DateFromTime(t)`: day of the month, 1..31. -/
def DateFromTime (t : Int) : Int :=
  DayWithinYear t - monthStart (MonthFromTime t) (InLeapYear t) + 1

/-- ECMAScript `WeekDay(t)`: 0 = Sunday, ..., 6 = Saturday. -/
def WeekDay (t : Int) : Int := (t + 4) % 7

/-- ECMAScript `MakeDay(year, month, date)`: months outside 0..11 carry into
the year, and the day of the month is an offset from the first of the month. -/
def MakeDay (year month date : Int) : Int :=
  let ym := year + month / 12
  let mn := month % 12
  DayFromYear ym + monthStart mn (leapDays ym) + date - 1

/-! ## The `Date` object -/

/-- A JavaScript `Date`: the local day number since 1970-01-01 and the time
within that day in milliseconds. -/
structure JSDate where
  day : Int
  timeInDay : Int
deriving DecidableEq, Repr

/-- Two-digit-year rule of the `Date(year, month, ...)` constructor: a year
from 0 to 99 stands for 1900 + year. -/
def MakeFullYear (y : Int) : Int :=
  if 0 ≤ y ∧ y ≤ 99 then 1900 + y else y

/-- JavaScript `new Date(year, month, date)` read on the local time line: local
midnight of that day.  The constructor for an arbitrary time zone and the finite
range of time values is `newDateIn`. -/
def newDate (year month date : Int) : JSDate :=
  { day := MakeDay (MakeFullYear year) month date, timeInDay := 0 }

/-- JavaScript `Date.prototype.getFullYear`. -/
def JSDate.getFullYear (d : JSDate) : Int := YearFromTime d.day

/-- JavaScript `Date.prototype.getMonth` (0 = January). -/
def JSDate.getMonth (d : JSDate) : Int := MonthFromTime d.day

/-- JavaScript `Date.prototype.getDate` (day of the month). -/
def JSDate.getDate (d : JSDate) : Int := DateFromTime d.day

/-- JavaScript `Date.prototype.getDay` (0 = Sunday). -/
def JSDate.getDay (d : JSDate) : Int := WeekDay d.day

/-- JavaScript `Date.prototype.setMonth(month)`: the day of the month and the
time within the day are kept, and `MakeDay` normalises the result. -/
def JSDate.setMonth (d : JSDate) (month : Int) : JSDate :=
  { day := MakeDay (YearFromTime d.day) month (DateFromTime d.day), timeInDay := d.timeInDay }

/-! ## Calendar grid (`CalendarApp.renderCalendar`, lines 169-210) -/

/-- `startingDay` of `renderCalendar`: weekday of the 1st, Monday first. -/
def startingDay (year month : Int) : Int :=
  let firstDay := newDate year month 1
  if firstDay.getDay = 0 then 6 else firstDay.getDay - 1

/-- `daysInMonth` of `renderCalendar`: `new Date(year, month + 1, 0).getDate()`. -/
def daysInMonth (year month : Int) : Int :=
  (newDate year (month + 1) 0).getDate

/-- `daysInPrevMonth` of `renderCalendar`: `new Date(year, month, 0).getDate()`. -/
def daysInPrevMonth (year month : Int) : Int :=
  (newDate year month 0).getDate

/-- `Math.ceil(n / 7)` for an integer `n`. -/
def ceilDiv7 (n : Int) : Int := -((-n) / 7)

/-- `totalCells` of `renderCalendar`. -/
def totalCells (year month : Int) : Int :=
  ceilDiv7 (startingDay year month + daysInMonth year month) * 7

/-- `cellDate` of `renderCalendar` for the loop index `i`. -/
def cellDate (year month i : Int) : JSDate :=
  if i < startingDay year month then
    newDate year (month - 1) (daysInPrevMonth year month - startingDay year month + i + 1)
  else if i ≥ startingDay year month + daysInMonth year month then
    newDate year (month + 1) (i - startingDay year month - daysInMonth year month + 1)
  else
    newDate year month (i - startingDay year month + 1)

/-- `isCurrentMonth` of `renderCalendar` for the loop index `i`. -/
def isCurrentMonth (year month i : Int) : Bool :=
  if i < startingDay year month then false
  else if i ≥ startingDay year month + daysInMonth year month then false
  else true

/-! ## Events (`CalendarEvent`, lines 5-64)

Field values are strings, as the JSDoc of the constructor declares them and as
the form of `handleFormSubmit` supplies them. -/

/-- A `CalendarEvent` object. -/
structure CalendarEvent where
  id : String
  title : String
  date : String
  time : String
  description : String
  category : String
  color : String
deriving DecidableEq, Repr

/-- A plain data object as passed to the constructor and to `update`, and as
stored in `localStorage`: a field is `none` when the object lacks it
(`undefined`). -/
structure EventData where
  id : Option String
  title : Option String
  date : Option String
  time : Option String
  description : Option String
  category : Option String
  color : Option String
deriving DecidableEq, Repr

/-- JavaScript `v || dflt` for `v` a string or `undefined`: the empty string
and `undefined` are falsy. -/
def orElse (v : Option String) (dflt : String) : String :=
  match v with
  | some s => if s = "" then dflt else s
  | none => dflt

/-- `CalendarEvent.constructor(data)`; `now` is the value `Date.now()` returns
at the call. -/
def CalendarEvent.new (now : Nat) (data : EventData) : CalendarEvent :=
  { id := orElse data.id (toString now)
    title := orElse data.title ""
    date := orElse data.date ""
    time := orElse data.time ""
    description := orElse data.description ""
    category := orElse data.category "personal"
    color := orElse data.color "#3b82f6" }

/-- `CalendarEvent.update(newData)`: a field is assigned when `newData` has it. -/
def CalendarEvent.update (e : CalendarEvent) (newData : EventData) : CalendarEvent :=
  { id := e.id
    title := match newData.title with | some v => v | none => e.title
    date := match newData.date with | some v => v | none => e.date
    time := match newData.time with | some v => v | none => e.time
    description := match newData.description with | some v => v | none => e.description
    category := match newData.category with | some v => v | none => e.category
    color := match newData.color with | some v => v | none => e.color }

/-- The plain object `saveToLocalStorage` builds from an event (lines 503-511). -/
def CalendarEvent.toData (e : CalendarEvent) : EventData :=
  { id := some e.id
    title := some e.title
    date := some e.date
    time := some e.time
    description := some e.description
    category := some e.category
    color := some e.color }

/-! ## Application state (`CalendarApp`)

The DOM is outside the embedding.  The `localStorage` slot `calendarEvents` is
represented by the JSON value its text denotes: `JSON.stringify` and
`JSON.parse` are taken to be inverse on arrays of objects with string fields. -/

/-- Content of the `localStorage` slot `calendarEvents`. -/
inductive Stored where
  | absent
  | malformed
  | value (items : List EventData)
deriving DecidableEq, Repr

/-- The state of a `CalendarApp`. -/
structure CalendarApp where
  events : List CalendarEvent
  currentDate : JSDate
  storage : Stored
deriving DecidableEq, Repr

/-- A fresh application with no events and nothing stored, showing `today`. -/
def CalendarApp.empty (today : JSDate) : CalendarApp :=
  { events := [], currentDate := today, storage := Stored.absent }

/-- `saveToLocalStorage` (lines 501-517), the write succeeding. -/
def saveToLocalStorage (app : CalendarApp) : CalendarApp :=
  { app with storage := Stored.value (app.events.map CalendarEvent.toData) }

/-- `eventsData.map(data => new CalendarEvent(data))`; `clock k` is the value of
`Date.now()` at the `k`-th constructor call. -/
def loadEvents (clock : Nat → Nat) : Nat → List EventData → List CalendarEvent
  | _, [] => []
  | k, d :: ds => CalendarEvent.new (clock k) d :: loadEvents clock (k + 1) ds

/-- `loadFromLocalStorage` (lines 522-533): a missing or malformed value leaves
the events as they are. -/
def loadFromLocalStorage (clock : Nat → Nat) (app : CalendarApp) : CalendarApp :=
  match app.storage with
  | Stored.value items => { app with events := loadEvents clock 0 items }
  | _ => app

/-- `addEvent(eventData)` (lines 467-472). -/
def addEvent (now : Nat) (eventData : EventData) (app : CalendarApp) : CalendarApp :=
  saveToLocalStorage { app with events := app.events ++ [CalendarEvent.new now eventData] }

/-- In-place `event.update(newData)` on the first event whose id is `id`. -/
def updateFirst (id : String) (newData : EventData) : List CalendarEvent → List CalendarEvent
  | [] => []
  | e :: es => if e.id = id then e.update newData :: es else e :: updateFirst id newData es

/-- `editEvent(id, newData)` (lines 479-486). -/
def editEvent (id : String) (newData : EventData) (app : CalendarApp) : CalendarApp :=
  match app.events.find? (fun e => decide (e.id = id)) with
  | some _ => saveToLocalStorage { app with events := updateFirst id newData app.events }
  | none => app

/-- `deleteEvent(id)` (lines 492-496). -/
def deleteEvent (id : String) (app : CalendarApp) : CalendarApp :=
  saveToLocalStorage { app with events := app.events.filter (fun e => decide (e.id ≠ id)) }

/-- `navigateMonth(direction)` (lines 146-149). -/
def navigateMonth (direction : Int) (app : CalendarApp) : CalendarApp :=
  { app with currentDate := app.currentDate.setMonth (app.currentDate.getMonth + direction) }

/-- The year and month `renderCalendar` displays (lines 170-171). -/
def displayed (app : CalendarApp) : Int × Int :=
  (app.currentDate.getFullYear, app.currentDate.getMonth)

/-- A call on the event store. -/
inductive StoreOp where
  | add (now : Nat) (data : EventData)
  | edit (id : String) (newData : EventData)
  | delete (id : String)
deriving DecidableEq, Repr

/-- Effect of one call on the application. -/
def applyOp (app : CalendarApp) : StoreOp → CalendarApp
  | StoreOp.add now data => addEvent now data app
  | StoreOp.edit id newData => editEvent id newData app
  | StoreOp.delete id => deleteEvent id app

/-- Effect of a sequence of calls, first to last. -/
def runOps (ops : List StoreOp) (app : CalendarApp) : CalendarApp :=
  ops.foldl applyOp app

/-- The clock values read by the `addEvent` calls of a sequence. -/
def addClocks : List StoreOp → List Nat
  | [] => []
  | StoreOp.add now _ :: ops => now :: addClocks ops
  | _ :: ops => addClocks ops

/-! ## Events of a day cell (`renderCalendar`, lines 213-243) -/

/-- `String(n).padStart(2, '0')` applied to an already converted string. -/
def padStart2 (s : String) : String :=
  String.mk (List.replicate (2 - s.length) '0') ++ s

/-- `formatDate(date)` (lines 285-290). -/
def formatDate (date : JSDate) : String :=
  toString date.getFullYear ++ "-" ++ padStart2 (toString (date.getMonth + 1)) ++ "-" ++
    padStart2 (toString date.getDate)

/-- `getEventsForDate(dateStr)` (lines 306-308). -/
def getEventsForDate (events : List CalendarEvent) (dateStr : String) : List CalendarEvent :=
  events.filter (fun e => decide (e.date = dateStr))

/-- Comparison of two character sequences position by position: the first
differing character decides, and a proper prefix comes first. -/
def compareChars : List Char → List Char → Int
  | [], [] => 0
  | [], _ :: _ => -1
  | _ :: _, [] => 1
  | a :: as, b :: bs =>
    if a.toNat < b.toNat then -1 else if b.toNat < a.toNat then 1 else compareChars as bs

/-- `a.localeCompare(b)` for two clock times `HH:MM`.  `localeCompare` collates
by the locale; every collation orders the digits by value, so two strings of the
shape `HH:MM` compare position by position.  For other strings the locale
decides and this definition says nothing about the program: the results on the
order of events are stated for clock times only. -/
def localeCompare (a b : String) : Int := compareChars a.toList b.toList

/-- The comparator of `eventsForDay.sort` (lines 238-243). -/
def sortCompare (a b : CalendarEvent) : Int :=
  if a.time = "" ∧ b.time = "" then 0
  else if a.time = "" then 1
  else if b.time = "" then -1
  else localeCompare a.time b.time

/-- The order the comparator induces: `a` may stay before `b`. -/
def sortLE (a b : CalendarEvent) : Prop := sortCompare a b ≤ 0

instance : DecidableRel sortLE := fun a b => inferInstanceAs (Decidable (sortCompare a b ≤ 0))

/-- `eventsForDay.sort(cmp)`.  `Array.prototype.sort` is stable and the
comparator is consistent, so the result is the stable sorted arrangement; it is
computed here by insertion from the right. -/
def sortEvents (l : List CalendarEvent) : List CalendarEvent :=
  l.insertionSort sortLE

/-- What `renderCalendar` puts in one day cell. -/
structure DayCell where
  date : JSDate
  dateStr : String
  isCurrentMonth : Bool
  isToday : Bool
  dayNumber : Int
  events : List CalendarEvent
deriving DecidableEq, Repr

/-- One iteration of the loop of `renderCalendar` (lines 191-263). -/
def renderCell (events : List CalendarEvent) (year month : Int) (today : JSDate) (i : Int) :
    DayCell :=
  let cd := cellDate year month i
  let cellDateStr := formatDate cd
  { date := cd
    dateStr := cellDateStr
    isCurrentMonth := isCurrentMonth year month i
    isToday := decide (cellDateStr = formatDate today)
    dayNumber := cd.getDate
    events := sortEvents (getEventsForDate events cellDateStr) }

/-- The loop of `renderCalendar` (lines 191-263) for the displayed `year` and
`month`: the day cells in grid order. -/
def renderCells (events : List CalendarEvent) (year month : Int) (today : JSDate) :
    List DayCell :=
  (List.range (totalCells year month).toNat).map
    (fun i : Nat => renderCell events year month today (i : Int))

/-- `renderCalendar()` (lines 162-264); `today` is the value of `new Date()` at
the call. -/
def renderCalendar (app : CalendarApp) (today : JSDate) : List DayCell :=
  renderCells app.events app.currentDate.getFullYear app.currentDate.getMonth today

/-! ## Dates in a time zone

The definitions above read a `Date` on its local time line, which is exact in a
time zone whose offset from UTC never changes and for dates the `Date` can
represent.  The definitions of this section follow ECMAScript for an arbitrary
time zone: a `Date` holds a UTC time value in milliseconds or is invalid
(`none`, the time value `NaN`), the constructor converts local time to UTC and
clips it to the representable range, and the getters convert back.  The loop of
`renderCalendar` is embedded once more on these dates, with the arithmetic and
the comparisons of JavaScript on `NaN`. -/

/-- ECMAScript `msPerDay`. -/
def msPerDay : Int := 86400000

/-- The largest time value a `Date` can hold, in milliseconds from the epoch. -/
def maxTimeValue : Int := 8640000000000000

/-- A time zone: the offset of local time from UTC in milliseconds, as a
function of the UTC time (`LocalTZA(t, true)`) and as a function of the local
time (`LocalTZA(t, false)`). -/
structure TimeZone where
  offsetAtUTC : Int → Int
  offsetAtLocal : Int → Int

/-- ECMAScript `LocalTime(t)`. -/
def LocalTime (z : TimeZone) (t : Int) : Int := t + z.offsetAtUTC t

/-- ECMAScript `UTC(t)`. -/
def UTC (z : TimeZone) (t : Int) : Int := t - z.offsetAtLocal t

/-- ECMAScript `TimeClip(t)`: a time value out of range is `NaN`. -/
def TimeClip (t : Int) : Option Int :=
  if -maxTimeValue ≤ t ∧ t ≤ maxTimeValue then some t else none

/-- ECMAScript `Day(t)`. -/
def Day (t : Int) : Int := t / msPerDay

/-- The local day number a valid `Date` with time value `t` shows. -/
def localDay (z : TimeZone) (t : Int) : Int := Day (LocalTime z t)

/-- JavaScript `new Date(year, month, date)` in the time zone `z`; `date` is
`none` when the argument is `NaN`. -/
def newDateIn (z : TimeZone) (year month : Int) (date : Option Int) : Option Int :=
  match date with
  | some d => TimeClip (UTC z (MakeDay (MakeFullYear year) month d * msPerDay))
  | none => none

/-- JavaScript `getFullYear()` in the time zone `z` (`none` is `NaN`). -/
def getFullYearIn (z : TimeZone) (d : Option Int) : Option Int :=
  d.map (fun t => YearFromTime (localDay z t))

/-- JavaScript `getMonth()` in the time zone `z`. -/
def getMonthIn (z : TimeZone) (d : Option Int) : Option Int :=
  d.map (fun t => MonthFromTime (localDay z t))

/-- JavaScript `getDate()` in the time zone `z`. -/
def getDateIn (z : TimeZone) (d : Option Int) : Option Int :=
  d.map (fun t => DateFromTime (localDay z t))

/-- JavaScript `getDay()` in the time zone `z`. -/
def getDayIn (z : TimeZone) (d : Option Int) : Option Int :=
  d.map (fun t => WeekDay (localDay z t))

/-- JavaScript `a + b` on numbers, `none` being `NaN`. -/
def numAdd (a b : Option Int) : Option Int :=
  match a, b with
  | some x, some y => some (x + y)
  | _, _ => none

/-- JavaScript `a - b` on numbers, `none` being `NaN`. -/
def numSub (a b : Option Int) : Option Int :=
  match a, b with
  | some x, some y => some (x - y)
  | _, _ => none

/-- JavaScript `a < b` on numbers: false when either is `NaN`. -/
def numLt (a b : Option Int) : Bool :=
  match a, b with
  | some x, some y => decide (x < y)
  | _, _ => false

/-- JavaScript `a >= b` on numbers: false when either is `NaN`. -/
def numGe (a b : Option Int) : Bool :=
  match a, b with
  | some x, some y => decide (x ≥ y)
  | _, _ => false

/-- `startingDay` of `renderCalendar` in the time zone `z` (lines 174-175). -/
def startingDayIn (z : TimeZone) (year month : Int) : Option Int :=
  match getDayIn z (newDateIn z year month (some 1)) with
  | some w => if w = 0 then some 6 else some (w - 1)
  | none => none

/-- `daysInMonth` of `renderCalendar` in the time zone `z` (line 178). -/
def daysInMonthIn (z : TimeZone) (year month : Int) : Option Int :=
  getDateIn z (newDateIn z year (month + 1) (some 0))

/-- `daysInPrevMonth` of `renderCalendar` in the time zone `z` (line 181). -/
def daysInPrevMonthIn (z : TimeZone) (year month : Int) : Option Int :=
  getDateIn z (newDateIn z year month (some 0))

/-- `totalCells` of `renderCalendar` in the time zone `z` (line 184). -/
def totalCellsIn (z : TimeZone) (year month : Int) : Option Int :=
  (numAdd (startingDayIn z year month) (daysInMonthIn z year month)).map
    (fun n => ceilDiv7 n * 7)

/-- `cellDate` of `renderCalendar` for the loop index `i` in the time zone `z`
(lines 199-210). -/
def cellDateIn (z : TimeZone) (year month i : Int) : Option Int :=
  if numLt (some i) (startingDayIn z year month) then
    newDateIn z year (month - 1)
      (numAdd (numAdd (numSub (daysInPrevMonthIn z year month) (startingDayIn z year month))
        (some i)) (some 1))
  else if numGe (some i)
      (numAdd (startingDayIn z year month) (daysInMonthIn z year month)) then
    newDateIn z year (month + 1)
      (numAdd (numSub (numSub (some i) (startingDayIn z year month))
        (daysInMonthIn z year month)) (some 1))
  else
    newDateIn z year month (numAdd (numSub (some i) (startingDayIn z year month)) (some 1))

/-- `isCurrentMonth` of `renderCalendar` for the loop index `i` in the time zone
`z` (lines 197-207). -/
def isCurrentMonthIn (z : TimeZone) (year month i : Int) : Bool :=
  if numLt (some i) (startingDayIn z year month) then false
  else if numGe (some i)
      (numAdd (startingDayIn z year month) (daysInMonthIn z year month)) then false
  else true

/-- The cells the loop of `renderCalendar` generates in the time zone `z`, each
with its date and its in-current-month flag; the loop does not run when
`totalCells` is `NaN`. -/
def cellsIn (z : TimeZone) (year month : Int) : List (Option Int × Bool) :=
  match totalCellsIn z year month with
  | some n =>
    (List.range n.toNat).map
      (fun i : Nat => (cellDateIn z year month i, isCurrentMonthIn z year month i))
  | none => []

/-- The calendar date (year, month index, day of the month) a valid `Date` with
time value `t` shows in the time zone `z`. -/
def civilAt (z : TimeZone) (t : Int) : Int × Int × Int :=
  (YearFromTime (localDay z t), MonthFromTime (localDay z t), DateFromTime (localDay z t))

/-- A time zone at the constant offset `c` (in milliseconds) from UTC. -/
def fixedZone (c : Int) : TimeZone :=
  { offsetAtUTC := fun _ => c, offsetAtLocal := fun _ => c }

/-- The offsets of Pacific/Apia around the end of 2011: ten hours behind UTC
until 30 December 2011 10:00 UTC and fourteen hours ahead from then on, so that
the local day 30 December 2011 does not exist; a local time of the skipped day
is read with the offset before the change. -/
def apiaZone : TimeZone :=
  { offsetAtUTC := fun t => if t < 1325239200000 then -36000000 else 50400000
    offsetAtLocal := fun t => if t < 1325289600000 then -36000000 else 50400000 }

/-- The calendar day with day number `n` exists for a `Date` in the time zone
`z`: the `Date` built at its local midnight is valid and shows that day. -/
def readsBack (z : TimeZone) (n : Int) : Prop :=
  (TimeClip (UTC z (n * msPerDay))).map (localDay z) = some n

instance (z : TimeZone) (n : Int) : Decidable (readsBack z n) :=
  inferInstanceAs (Decidable ((TimeClip (UTC z (n * msPerDay))).map (localDay z) = some n))

/-! ## Calendar notions used to state the results -/

/-- The number a sequence of decimal digits denotes. -/
def digitsValue (l : List Char) : Nat := l.foldl (fun acc c => acc * 10 + (c.toNat - 48)) 0

/-- The identifiers the `addEvent` calls of a sequence give to their events. -/
def addIds : List StoreOp → List String
  | [] => []
  | StoreOp.add now data :: ops => orElse data.id (toString now) :: addIds ops
  | _ :: ops => addIds ops

/-- Whether a call leaves the choice of the identifier to the constructor: an
`addEvent` call does when its data has no id or an empty one. -/
def suppliesNoId : StoreOp → Bool
  | StoreOp.add _ data => decide (data.id = none ∨ data.id = some "")
  | _ => true

/-- Whether a call can leave an event with an empty category or color: only an
`editEvent` call whose data sets one of them to the empty string can. -/
def keepsCategoryAndColor : StoreOp → Bool
  | StoreOp.edit _ newData =>
    decide (newData.category ≠ some "" ∧ newData.color ≠ some "")
  | _ => true

/-- The identifiers of the events of a store, in order. -/
def storeIds (app : CalendarApp) : List String := app.events.map (fun e => e.id)

/-- Whether every `addEvent` call of a sequence run from `app` gives its event an
identifier (the supplied id, or `Date.now().toString()` when none is supplied)
that no event of the store has at the moment of the call. -/
def freshAdds : List StoreOp → CalendarApp → Bool
  | [], _ => true
  | StoreOp.add now data :: ops, app =>
    decide (orElse data.id (toString now) ∉ storeIds app) &&
      freshAdds ops (applyOp app (StoreOp.add now data))
  | StoreOp.edit id newData :: ops, app => freshAdds ops (applyOp app (StoreOp.edit id newData))
  | StoreOp.delete id :: ops, app => freshAdds ops (applyOp app (StoreOp.delete id))

/-- Whether a character is a decimal digit. -/
def isDigitChar (c : Char) : Bool := decide (48 ≤ c.toNat ∧ c.toNat ≤ 57)

/-- Whether a string is a clock time `HH:MM`, as a time input produces it: two
digits for the hour up to 23, a colon, two digits for the minute up to 59. -/
def isClockTime (s : String) : Bool :=
  match s.toList with
  | [a, b, c, d, e] =>
    isDigitChar a && isDigitChar b && decide (c = ':') && isDigitChar d && isDigitChar e &&
      decide (10 * (a.toNat - 48) + (b.toNat - 48) ≤ 23) &&
      decide (10 * (d.toNat - 48) + (e.toNat - 48) ≤ 59)
  | _ => false

/-- The minutes after midnight a clock time `HH:MM` denotes. -/
def clockMinutes (s : String) : Nat :=
  match s.toList with
  | [a, b, _, d, e] =>
    60 * (10 * (a.toNat - 48) + (b.toNat - 48)) + (10 * (d.toNat - 48) + (e.toNat - 48))
  | _ => 0

/-- An event with the defaults of the constructor applied to its category and
color. -/
def withDefaults (e : CalendarEvent) : CalendarEvent :=
  { e with category := orElse (some e.category) "personal"
           color := orElse (some e.color) "#3b82f6" }

/-- Number of days of month `m` (0..11) of year `y`. -/
def monthLength (y m : Int) : Int :=
  if m = 1 then 28 + leapDays y
  else if m = 3 ∨ m = 5 ∨ m = 8 ∨ m = 10 then 30
  else 31

/-- The year and month index of the month before month `m` of year `y`. -/
def prevMonth (y m : Int) : Int × Int := if m = 0 then (y - 1, 11) else (y, m - 1)

/-- The year and month index of the month after month `m` of year `y`. -/
def nextMonth (y m : Int) : Int × Int := if m = 11 then (y + 1, 0) else (y, m + 1)

/-- Weekday index of a day number with Monday = 0, ..., Sunday = 6. -/
def mondayIndex (t : Int) : Int := (WeekDay t + 6) % 7

/-- Monday-based weekday index of the 1st of month `m` (0..11) of year `y`. -/
def firstWeekday (y m : Int) : Int := mondayIndex (MakeDay y m 1)

/-- Monday-based weekday index of the last day of month `m` (0..11) of year `y`. -/
def lastWeekday (y m : Int) : Int := mondayIndex (MakeDay y m (monthLength y m))

/-- The smallest multiple of 7 that covers the leading days and the days of
month `m` (0..11) of year `y`. -/
def weeksCells (y m : Int) : Int := ceilDiv7 (firstWeekday y m + monthLength y m) * 7

/-- The calendar date a `Date` shows: year, month index and day of the month. -/
def JSDate.civil (d : JSDate) : Int × Int × Int := (d.getFullYear, d.getMonth, d.getDate)

/-- The calendar date one day after the date `(y, m, d)`. -/
def nextDay (c : Int × Int × Int) : Int × Int × Int :=
  if c.2.2 < monthLength c.1 c.2.1 then (c.1, c.2.1, c.2.2 + 1)
  else ((nextMonth c.1 c.2.1).1, (nextMonth c.1 c.2.1).2, 1)

/-! ## Sample data of the examples -/

/-- An event of 1 February 2024 with the given id and time, for the examples. -/
def sampleEvent (id time : String) : CalendarEvent :=
  { id := id, title := "Meeting", date := "2024-02-01", time := time, description := "",
    category := "personal", color := "#3b82f6" }

/-- A data object without any field. -/
def EventData.empty : EventData :=
  { id := none, title := none, date := none, time := none, description := none,
    category := none, color := none }

/-- An application showing `currentDate`, with no events and nothing stored. -/
def appShowing (currentDate : JSDate) : CalendarApp := CalendarApp.empty currentDate

/-- A store of two events, for the examples. -/
def sampleApp : CalendarApp :=
  { events := [sampleEvent "1" "09:00", sampleEvent "2" "08:00"]
    currentDate := newDate 2024 1 1
    storage := Stored.absent }

/-- A data object that has a title only, for the examples. -/
def sampleTitleOnly : EventData :=
  { id := none, title := some "Review", date := none, time := none, description := none,
    category := none, color := none }

/-- Two `addEvent` calls without an id at the same clock value. -/
def sameClockOps : List StoreOp :=
  [StoreOp.add 1000 sampleTitleOnly, StoreOp.add 1000 sampleTitleOnly]

/-- An `addEvent` call followed by an `editEvent` call that empties the category. -/
def emptyCategoryOps : List StoreOp :=
  [StoreOp.add 1000 sampleTitleOnly,
    StoreOp.edit "1000" { EventData.empty with category := some "" }]

/-- The event the calls `emptyCategoryOps` create, with the given category. -/
def emptyCategoryEvent (category : String) : CalendarEvent :=
  { id := "1000", title := "Review", date := "", time := "", description := "",
    category := category, color := "#3b82f6" }

/-- A freshly started application that finds the value `app` has stored. -/
def restartedFrom (app : CalendarApp) (today : JSDate) : CalendarApp :=
  { events := [], currentDate := today, storage := (saveToLocalStorage app).storage }

/-- Calls of all three kinds at distinct clock values, for the examples. -/
def sampleOps : List StoreOp :=
  [StoreOp.add 1000 sampleTitleOnly, StoreOp.add 1001 sampleTitleOnly,
    StoreOp.edit "1000" { EventData.empty with time := some "10:30" },
    StoreOp.delete "1001", StoreOp.add 1002 sampleTitleOnly]

/-- Calls that supply the ids "a" and "b", leave one id to the clock, delete the
event "a" and add an event with the id "a" again, all but the last at the same
clock value. -/
def suppliedIdOps : List StoreOp :=
  [StoreOp.add 1000 { EventData.empty with id := some "a", title := some "A" },
    StoreOp.add 1000 { EventData.empty with id := some "b", title := some "B" },
    StoreOp.add 1000 sampleTitleOnly,
    StoreOp.delete "a",
    StoreOp.add 1001 { EventData.empty with id := some "a", title := some "A again" }]

/-- Three events of 1 February 2024 with the times 09:00, 08:00 and none. -/
def sampleTimedEvents : List CalendarEvent :=
  [sampleEvent "1" "09:00", sampleEvent "2" "08:00", sampleEvent "3" ""]

/-- A stored value whose single object has an id and a title and nothing else. -/
def storedTitleOnly : Stored :=
  Stored.value [{ EventData.empty with id := some "7", title := some "Review" }]

/-- An application that has just loaded `storedTitleOnly`: it holds one event,
built with the defaults of the constructor, and the stored value is untouched. -/
def loadedTitleOnlyApp : CalendarApp :=
  loadFromLocalStorage (fun _ => 0)
    { events := [], currentDate := newDate 2024 1 1, storage := storedTitleOnly }

end Calendar

namespace Calendar

/-! ## Day arithmetic: lemmas -/

theorem DayFromYear_succ (y : Int) : DayFromYear (y + 1) = DayFromYear y + DaysInYear y := by
  unfold DayFromYear DaysInYear
  split_ifs <;> omega

theorem DayFromYear_lt {a b : Int} (h : a < b) : DayFromYear a < DayFromYear b := by
  unfold DayFromYear
  omega

theorem YearFromTime_spec (t : Int) :
    DayFromYear (YearFromTime t) ≤ t ∧ t < DayFromYear (YearFromTime t + 1) := by
  unfold YearFromTime
  simp only
  split_ifs with h1 h2
  · rw [sub_add_cancel]
    refine ⟨?_, h1⟩
    unfold DayFromYear at *
    omega
  · refine ⟨h2, ?_⟩
    unfold DayFromYear at *
    omega
  · omega

theorem YearFromTime_eq {t y : Int} (h1 : DayFromYear y ≤ t) (h2 : t < DayFromYear (y + 1)) :
    YearFromTime t = y := by
  have hs := YearFromTime_spec t
  by_contra hne
  rcases lt_or_gt_of_ne hne with hlt | hgt
  · have h3 : YearFromTime t + 1 ≤ y := by omega
    rcases eq_or_lt_of_le h3 with he | hl
    · rw [he] at hs; omega
    · have := DayFromYear_lt hl; omega
  · have h3 : y + 1 ≤ YearFromTime t := by omega
    rcases eq_or_lt_of_le h3 with he | hl
    · rw [← he] at hs; omega
    · have := DayFromYear_lt hl; omega

/-- The year read from a day number is the largest year that starts on or before
that day, as ECMAScript defines `YearFromTime`. -/
theorem YearFromTime_largest (t y : Int) (h : DayFromYear y ≤ t) : y ≤ YearFromTime t := by
  by_contra hlt
  have hs := YearFromTime_spec t
  have h3 : YearFromTime t + 1 ≤ y := by omega
  rcases eq_or_lt_of_le h3 with he | hl
  · rw [he] at hs; omega
  · have := DayFromYear_lt hl; omega

/-- Known dates: 1 January 1970 is day 0 and a Thursday, 1 January 2000 is day
10957, 2000 and 2024 are leap years and 1900 is not, and the day after
28 February 2023 is 1 March. -/
theorem known_dates :
    MakeDay 1970 0 1 = 0 ∧ WeekDay 0 = 4 ∧ MakeDay 2000 0 1 = 10957 ∧
      DaysInYear 2000 = 366 ∧ DaysInYear 2024 = 366 ∧ DaysInYear 1900 = 365 ∧
      YearFromTime (MakeDay 2023 1 29) = 2023 ∧ MonthFromTime (MakeDay 2023 1 29) = 2 ∧
      DateFromTime (MakeDay 2023 1 29) = 1 ∧ WeekDay (MakeDay 2024 1 1) = 4 := by
  decide

theorem leapDays_cases (y : Int) :
    (leapDays y = 0 ∧ DaysInYear y = 365) ∨ (leapDays y = 1 ∧ DaysInYear y = 366) := by
  unfold leapDays DaysInYear
  split_ifs <;> omega

theorem monthOfDay_cases (d l : Int) :
    (d < 31 ∧ monthOfDay d l = 0) ∨
    (31 ≤ d ∧ d < 59 + l ∧ monthOfDay d l = 1) ∨
    (59 + l ≤ d ∧ d < 90 + l ∧ monthOfDay d l = 2) ∨
    (90 + l ≤ d ∧ d < 120 + l ∧ monthOfDay d l = 3) ∨
    (120 + l ≤ d ∧ d < 151 + l ∧ monthOfDay d l = 4) ∨
    (151 + l ≤ d ∧ d < 181 + l ∧ monthOfDay d l = 5) ∨
    (181 + l ≤ d ∧ d < 212 + l ∧ monthOfDay d l = 6) ∨
    (212 + l ≤ d ∧ d < 243 + l ∧ monthOfDay d l = 7) ∨
    (243 + l ≤ d ∧ d < 273 + l ∧ monthOfDay d l = 8) ∨
    (273 + l ≤ d ∧ d < 304 + l ∧ monthOfDay d l = 9) ∨
    (304 + l ≤ d ∧ d < 334 + l ∧ monthOfDay d l = 10) ∨
    (334 + l ≤ d ∧ monthOfDay d l = 11) := by
  by_cases h0 : d < 31
  · exact Or.inl ⟨h0, by
      simp only [monthOfDay, h0, if_true, if_false]⟩
  refine Or.inr ?_
  by_cases h1 : d < 59 + l
  · exact Or.inl ⟨by omega, h1, by
      simp only [monthOfDay, h0, h1, if_true, if_false]⟩
  refine Or.inr ?_
  by_cases h2 : d < 90 + l
  · exact Or.inl ⟨by omega, h2, by
      simp only [monthOfDay, h0, h1, h2, if_true, if_false]⟩
  refine Or.inr ?_
  by_cases h3 : d < 120 + l
  · exact Or.inl ⟨by omega, h3, by
      simp only [monthOfDay, h0, h1, h2, h3, if_true, if_false]⟩
  refine Or.inr ?_
  by_cases h4 : d < 151 + l
  · exact Or.inl ⟨by omega, h4, by
      simp only [monthOfDay, h0, h1, h2, h3, h4, if_true, if_false]⟩
  refine Or.inr ?_
  by_cases h5 : d < 181 + l
  · exact Or.inl ⟨by omega, h5, by
      simp only [monthOfDay, h0, h1, h2, h3, h4, h5, if_true, if_false]⟩
  refine Or.inr ?_
  by_cases h6 : d < 212 + l
  · exact Or.inl ⟨by omega, h6, by
      simp only [monthOfDay, h0, h1, h2, h3, h4, h5, h6, if_true, if_false]⟩
  refine Or.inr ?_
  by_cases h7 : d < 243 + l
  · exact Or.inl ⟨by omega, h7, by
      simp only [monthOfDay, h0, h1, h2, h3, h4, h5, h6, h7, if_true, if_false]⟩
  refine Or.inr ?_
  by_cases h8 : d < 273 + l
  · exact Or.inl ⟨by omega, h8, by
      simp only [monthOfDay, h0, h1, h2, h3, h4, h5, h6, h7, h8, if_true, if_false]⟩
  refine Or.inr ?_
  by_cases h9 : d < 304 + l
  · exact Or.inl ⟨by omega, h9, by
      simp only [monthOfDay, h0, h1, h2, h3, h4, h5, h6, h7, h8, h9, if_true, if_false]⟩
  refine Or.inr ?_
  by_cases h10 : d < 334 + l
  · exact Or.inl ⟨by omega, h10, by
      simp only [monthOfDay, h0, h1, h2, h3, h4, h5, h6, h7, h8, h9, h10, if_true, if_false]⟩
  refine Or.inr ?_
  exact ⟨by omega, by
    simp only [monthOfDay, h0, h1, h2, h3, h4, h5, h6, h7, h8, h9, h10, if_false]⟩

/-- The month table, month by month: first day within the year and length. -/
theorem monthTable (y : Int) {m : Int} (hm : 0 ≤ m ∧ m ≤ 11) :
    (m = 0 ∧ monthStart m (leapDays y) = 0 ∧ monthLength y m = 31) ∨
    (m = 1 ∧ monthStart m (leapDays y) = 31 ∧ monthLength y m = 28 + leapDays y) ∨
    (m = 2 ∧ monthStart m (leapDays y) = 59 + leapDays y ∧ monthLength y m = 31) ∨
    (m = 3 ∧ monthStart m (leapDays y) = 90 + leapDays y ∧ monthLength y m = 30) ∨
    (m = 4 ∧ monthStart m (leapDays y) = 120 + leapDays y ∧ monthLength y m = 31) ∨
    (m = 5 ∧ monthStart m (leapDays y) = 151 + leapDays y ∧ monthLength y m = 30) ∨
    (m = 6 ∧ monthStart m (leapDays y) = 181 + leapDays y ∧ monthLength y m = 31) ∨
    (m = 7 ∧ monthStart m (leapDays y) = 212 + leapDays y ∧ monthLength y m = 31) ∨
    (m = 8 ∧ monthStart m (leapDays y) = 243 + leapDays y ∧ monthLength y m = 30) ∨
    (m = 9 ∧ monthStart m (leapDays y) = 273 + leapDays y ∧ monthLength y m = 31) ∨
    (m = 10 ∧ monthStart m (leapDays y) = 304 + leapDays y ∧ monthLength y m = 30) ∨
    (m = 11 ∧ monthStart m (leapDays y) = 334 + leapDays y ∧ monthLength y m = 31) := by
  obtain ⟨h0, h1⟩ := hm
  interval_cases m <;> simp [monthStart, monthLength]

theorem MakeDay_of_month {y m d : Int} (hm : 0 ≤ m ∧ m ≤ 11) :
    MakeDay y m d = DayFromYear y + monthStart m (leapDays y) + d - 1 := by
  unfold MakeDay
  have h1 : m / 12 = 0 := by omega
  have h2 : m % 12 = m := by omega
  simp only [h1, h2, add_zero]

theorem MakeDay_shift (y m d e : Int) : MakeDay y m d = MakeDay y m e + (d - e) := by
  unfold MakeDay
  simp only
  omega

theorem MakeDay_pred_month (y d : Int) : MakeDay y (-1) d = MakeDay (y - 1) 11 d := by
  unfold MakeDay
  have h1 : (-1 : Int) / 12 = -1 := by decide
  have h2 : (-1 : Int) % 12 = 11 := by decide
  have h3 : (11 : Int) / 12 = 0 := by decide
  have h4 : (11 : Int) % 12 = 11 := by decide
  simp only [h1, h2, h3, h4, add_zero]
  rfl

theorem MakeDay_succ_month (y d : Int) : MakeDay y 12 d = MakeDay (y + 1) 0 d := by
  unfold MakeDay
  have h1 : (12 : Int) / 12 = 1 := by decide
  have h2 : (12 : Int) % 12 = 0 := by decide
  have h3 : (0 : Int) / 12 = 0 := by decide
  have h4 : (0 : Int) % 12 = 0 := by decide
  simp only [h1, h2, h3, h4, add_zero]

theorem monthLength_pos (y m : Int) : 28 ≤ monthLength y m ∧ monthLength y m ≤ 31 := by
  unfold monthLength
  rcases leapDays_cases y with ⟨h, _⟩ | ⟨h, _⟩ <;> split_ifs <;> omega

/-- The first of the next month is the day after the last day of the month. -/
theorem MakeDay_next_first {y m : Int} (hm : 0 ≤ m ∧ m ≤ 11) :
    MakeDay y (m + 1) 1 = MakeDay y m 1 + monthLength y m := by
  have hl := leapDays_cases y
  by_cases h11 : m = 11
  · subst h11
    have : ((11 : Int) + 1) = 12 := by norm_num
    rw [this, MakeDay_succ_month, MakeDay_of_month (by omega), MakeDay_of_month (by omega),
      DayFromYear_succ]
    have t0 := monthTable (y + 1) (m := 0) (by omega)
    have t11 := monthTable y (m := 11) (by omega)
    omega
  · rw [MakeDay_of_month (by omega), MakeDay_of_month (by omega)]
    have t1 := monthTable y (m := m) hm
    have t2 := monthTable y (m := m + 1) (by omega)
    omega

/-- Reading back the fields of a day built by `MakeDay` from a valid date. -/
theorem fields_MakeDay {y m d : Int} (hm : 0 ≤ m ∧ m ≤ 11)
    (hd : 1 ≤ d ∧ d ≤ monthLength y m) :
    YearFromTime (MakeDay y m d) = y ∧ MonthFromTime (MakeDay y m d) = m ∧
      DateFromTime (MakeDay y m d) = d := by
  have hl := leapDays_cases y
  have ht := monthTable y hm
  have hy : YearFromTime (MakeDay y m d) = y := by
    apply YearFromTime_eq
    · rw [MakeDay_of_month hm]
      omega
    · rw [MakeDay_of_month hm, DayFromYear_succ]
      omega
  have hw : DayWithinYear (MakeDay y m d) = monthStart m (leapDays y) + d - 1 := by
    unfold DayWithinYear
    rw [hy, MakeDay_of_month hm]
    omega
  have hmo : MonthFromTime (MakeDay y m d) = m := by
    unfold MonthFromTime InLeapYear
    rw [hw, hy]
    have hc := monthOfDay_cases (monthStart m (leapDays y) + d - 1) (leapDays y)
    omega
  refine ⟨hy, hmo, ?_⟩
  unfold DateFromTime InLeapYear
  rw [hw, hy, hmo]
  omega

theorem monthOfDay_range (d l : Int) : 0 ≤ monthOfDay d l ∧ monthOfDay d l ≤ 11 := by
  have hc := monthOfDay_cases d l
  omega

theorem MonthFromTime_range (t : Int) : 0 ≤ MonthFromTime t ∧ MonthFromTime t ≤ 11 :=
  monthOfDay_range _ _

/-- Every day number is the day `MakeDay` builds from its own fields. -/
theorem MakeDay_fields (t : Int) :
    MakeDay (YearFromTime t) (MonthFromTime t) (DateFromTime t) = t := by
  rw [MakeDay_of_month (MonthFromTime_range t)]
  unfold DateFromTime InLeapYear DayWithinYear
  omega

theorem monthOfDay_date_range (y d : Int) (h0 : 0 ≤ d) (h1 : d < DaysInYear y) :
    1 ≤ d - monthStart (monthOfDay d (leapDays y)) (leapDays y) + 1 ∧
      d - monthStart (monthOfDay d (leapDays y)) (leapDays y) + 1 ≤
        monthLength y (monthOfDay d (leapDays y)) := by
  have hl := leapDays_cases y
  have hc := monthOfDay_cases d (leapDays y)
  have ht := monthTable y (monthOfDay_range d (leapDays y))
  omega

/-- The day of the month read from a day number is a day of that month. -/
theorem DateFromTime_range (t : Int) :
    1 ≤ DateFromTime t ∧ DateFromTime t ≤ monthLength (YearFromTime t) (MonthFromTime t) := by
  have hs := YearFromTime_spec t
  rw [DayFromYear_succ] at hs
  have hw : DayWithinYear t = t - DayFromYear (YearFromTime t) := rfl
  exact monthOfDay_date_range (YearFromTime t) (DayWithinYear t) (by omega) (by omega)

/-- The last day of the previous month is the day before the first of the month. -/
theorem MakeDay_prev_first {y m : Int} (hm : 0 ≤ m ∧ m ≤ 11) :
    MakeDay y (m - 1) 1 + monthLength (prevMonth y m).1 (prevMonth y m).2 = MakeDay y m 1 := by
  by_cases h0 : m = 0
  · subst h0
    have h1 : ((0 : Int) - 1) = -1 := by norm_num
    have h2 := MakeDay_next_first (y := y - 1) (m := 11) (by omega)
    have h3 : ((11 : Int) + 1) = 12 := by norm_num
    rw [h3, MakeDay_succ_month, sub_add_cancel] at h2
    rw [h1, MakeDay_pred_month]
    simp only [prevMonth, if_true]
    omega
  · have h2 := MakeDay_next_first (y := y) (m := m - 1) (by omega)
    rw [sub_add_cancel] at h2
    simp only [prevMonth, if_neg h0]
    omega

theorem prevMonth_range {y m : Int} (hm : 0 ≤ m ∧ m ≤ 11) :
    0 ≤ (prevMonth y m).2 ∧ (prevMonth y m).2 ≤ 11 := by
  unfold prevMonth
  split_ifs <;> simp only <;> omega

theorem nextMonth_range {y m : Int} (hm : 0 ≤ m ∧ m ≤ 11) :
    0 ≤ (nextMonth y m).2 ∧ (nextMonth y m).2 ≤ 11 := by
  unfold nextMonth
  split_ifs <;> simp only <;> omega

theorem MakeDay_prevMonth {y m : Int} (hm : 0 ≤ m ∧ m ≤ 11) (d : Int) :
    MakeDay y (m - 1) d = MakeDay (prevMonth y m).1 (prevMonth y m).2 d := by
  by_cases h0 : m = 0
  · subst h0
    have h1 : ((0 : Int) - 1) = -1 := by norm_num
    rw [h1, MakeDay_pred_month]
    simp [prevMonth]
  · simp [prevMonth, h0]

theorem MakeDay_nextMonth {y m : Int} (hm : 0 ≤ m ∧ m ≤ 11) (d : Int) :
    MakeDay y (m + 1) d = MakeDay (nextMonth y m).1 (nextMonth y m).2 d := by
  by_cases h0 : m = 11
  · subst h0
    have h1 : ((11 : Int) + 1) = 12 := by norm_num
    rw [h1, MakeDay_succ_month]
    simp [nextMonth]
  · simp [nextMonth, h0]

/-! ### The quantities `renderCalendar` computes -/

theorem daysInMonth_eq (year month : Int) (hm : 0 ≤ month ∧ month ≤ 11) :
    daysInMonth year month = monthLength (MakeFullYear year) month := by
  unfold daysInMonth newDate JSDate.getDate
  simp only
  have h1 : MakeDay (MakeFullYear year) (month + 1) 0 =
      MakeDay (MakeFullYear year) month (monthLength (MakeFullYear year) month) := by
    have a1 := MakeDay_shift (MakeFullYear year) (month + 1) 0 1
    have a2 := MakeDay_next_first (y := MakeFullYear year) hm
    have a3 := MakeDay_shift (MakeFullYear year) month (monthLength (MakeFullYear year) month) 1
    omega
  rw [h1]
  exact (fields_MakeDay hm ⟨(by have := monthLength_pos (MakeFullYear year) month; omega),
    le_refl _⟩).2.2

theorem daysInPrevMonth_eq (year month : Int) (hm : 0 ≤ month ∧ month ≤ 11) :
    daysInPrevMonth year month =
      monthLength (prevMonth (MakeFullYear year) month).1 (prevMonth (MakeFullYear year) month).2 := by
  unfold daysInPrevMonth newDate JSDate.getDate
  simp only
  have hp := prevMonth_range (y := MakeFullYear year) hm
  have hl := monthLength_pos (prevMonth (MakeFullYear year) month).1
    (prevMonth (MakeFullYear year) month).2
  have h1 : MakeDay (MakeFullYear year) month 0 =
      MakeDay (prevMonth (MakeFullYear year) month).1 (prevMonth (MakeFullYear year) month).2
        (monthLength (prevMonth (MakeFullYear year) month).1
          (prevMonth (MakeFullYear year) month).2) := by
    have a1 := MakeDay_shift (MakeFullYear year) month 0 1
    have a2 := MakeDay_prev_first (y := MakeFullYear year) hm
    have a3 := MakeDay_prevMonth (y := MakeFullYear year) hm 1
    have a4 := MakeDay_shift (prevMonth (MakeFullYear year) month).1
      (prevMonth (MakeFullYear year) month).2
      (monthLength (prevMonth (MakeFullYear year) month).1
        (prevMonth (MakeFullYear year) month).2) 1
    omega
  rw [h1]
  exact (fields_MakeDay hp ⟨by omega, le_refl _⟩).2.2

theorem startingDay_range (year month : Int) :
    0 ≤ startingDay year month ∧ startingDay year month ≤ 6 := by
  unfold startingDay JSDate.getDay WeekDay
  simp only
  split_ifs <;> omega

theorem startingDay_eq (year month : Int) :
    startingDay year month = mondayIndex (newDate year month 1).day := by
  unfold startingDay JSDate.getDay WeekDay mondayIndex WeekDay
  simp only
  split_ifs <;> omega

theorem totalCells_least (year month : Int) :
    7 ∣ totalCells year month ∧
      startingDay year month + daysInMonth year month ≤ totalCells year month ∧
      ∀ k : Int, 7 ∣ k → startingDay year month + daysInMonth year month ≤ k →
        totalCells year month ≤ k := by
  unfold totalCells ceilDiv7
  refine ⟨Dvd.intro_left _ rfl, by omega, ?_⟩
  intro k hk hle
  obtain ⟨c, rfl⟩ := hk
  omega

/-- The day a cell index denotes is `i - startingDay` days after the first of the
month, whichever of the three branches builds it. -/
theorem cellDate_day (year month : Int) (hm : 0 ≤ month ∧ month ≤ 11) (i : Int) :
    (cellDate year month i).day =
      (newDate year month 1).day + (i - startingDay year month) := by
  unfold cellDate
  split_ifs with h1 h2
  · simp only [newDate]
    rw [daysInPrevMonth_eq year month hm]
    have a := MakeDay_prev_first (y := MakeFullYear year) hm
    have b := MakeDay_shift (MakeFullYear year) (month - 1)
      (monthLength (prevMonth (MakeFullYear year) month).1
        (prevMonth (MakeFullYear year) month).2 - startingDay year month + i + 1) 1
    omega
  · simp only [newDate]
    rw [daysInMonth_eq year month hm]
    have a := MakeDay_next_first (y := MakeFullYear year) hm
    have b := MakeDay_shift (MakeFullYear year) (month + 1)
      (i - startingDay year month - monthLength (MakeFullYear year) month + 1) 1
    omega
  · simp only [newDate]
    have b := MakeDay_shift (MakeFullYear year) month (i - startingDay year month + 1) 1
    omega

theorem cellDate_timeInDay (year month i : Int) : (cellDate year month i).timeInDay = 0 := by
  unfold cellDate
  split_ifs <;> rfl

/-- The calendar date read from a day number advances by `nextDay` when the day
number advances by one. -/
theorem civil_succ (t u : Int) :
    (JSDate.mk (t + 1) u).civil = nextDay (JSDate.mk t u).civil := by
  have hf := MakeDay_fields t
  have hm := MonthFromTime_range t
  have hd := DateFromTime_range t
  simp only [JSDate.civil, JSDate.getFullYear, JSDate.getMonth, JSDate.getDate, nextDay]
  split_ifs with h
  · have e : t + 1 = MakeDay (YearFromTime t) (MonthFromTime t) (DateFromTime t + 1) := by
      have := MakeDay_shift (YearFromTime t) (MonthFromTime t) (DateFromTime t + 1)
        (DateFromTime t)
      omega
    obtain ⟨a, b, c⟩ := fields_MakeDay (y := YearFromTime t) (m := MonthFromTime t)
      (d := DateFromTime t + 1) hm ⟨by omega, by omega⟩
    rw [e, a, b, c]
  · have e : t + 1 = MakeDay (nextMonth (YearFromTime t) (MonthFromTime t)).1
        (nextMonth (YearFromTime t) (MonthFromTime t)).2 1 := by
      have a1 := MakeDay_shift (YearFromTime t) (MonthFromTime t) (DateFromTime t) 1
      have a2 := MakeDay_next_first (y := YearFromTime t) hm
      have a3 := MakeDay_nextMonth (y := YearFromTime t) hm 1
      omega
    have hl := monthLength_pos (nextMonth (YearFromTime t) (MonthFromTime t)).1
      (nextMonth (YearFromTime t) (MonthFromTime t)).2
    obtain ⟨a, b, c⟩ := fields_MakeDay (y := (nextMonth (YearFromTime t) (MonthFromTime t)).1)
      (m := (nextMonth (YearFromTime t) (MonthFromTime t)).2) (d := 1)
      (nextMonth_range hm) ⟨by omega, by omega⟩
    rw [e, a, b, c]

theorem totalCells_cases (year month : Int) (hm : 0 ≤ month ∧ month ≤ 11) :
    (totalCells year month = 28 ∨ totalCells year month = 35 ∨ totalCells year month = 42) ∧
      (totalCells year month = 28 ↔
        startingDay year month = 0 ∧ daysInMonth year month = 28) := by
  have hs := startingDay_range year month
  have hd := monthLength_pos (MakeFullYear year) month
  rw [← daysInMonth_eq year month hm] at hd
  unfold totalCells ceilDiv7
  omega

theorem MakeFullYear_of_not_two_digit {year : Int} (hy : year < 0 ∨ 99 < year) :
    MakeFullYear year = year := by
  unfold MakeFullYear
  split_ifs <;> omega

/-- The date `firstDay = new Date(year, month, 1)` is the 1st of month `month` of
the year the constructor resolves. -/
theorem firstDay_civil (year month : Int) (hm : 0 ≤ month ∧ month ≤ 11) :
    (newDate year month 1).civil = (MakeFullYear year, month, 1) := by
  have hl := monthLength_pos (MakeFullYear year) month
  obtain ⟨a, b, c⟩ := fields_MakeDay (y := MakeFullYear year) (m := month) (d := 1) hm
    ⟨by omega, by omega⟩
  simp only [JSDate.civil, JSDate.getFullYear, JSDate.getMonth, JSDate.getDate, newDate, a, b, c]

theorem renderCells_length (events : List CalendarEvent) (year month : Int) (today : JSDate) :
    (renderCells events year month today).length = (totalCells year month).toNat := by
  unfold renderCells
  rw [List.length_map, List.length_range]

theorem renderCells_getElem? (events : List CalendarEvent) (year month : Int) (today : JSDate)
    (i : Nat) (h : (i : Int) < totalCells year month) :
    (renderCells events year month today)[i]? = some (renderCell events year month today i) := by
  have hi : i < (totalCells year month).toNat := by omega
  unfold renderCells
  rw [List.getElem?_map, List.getElem?_range hi]
  rfl

theorem isCurrentMonth_iff (year month i : Int) :
    isCurrentMonth year month i = true ↔
      startingDay year month ≤ i ∧ i < startingDay year month + daysInMonth year month := by
  unfold isCurrentMonth
  split_ifs <;> simp <;> omega

theorem isCurrentMonth_false_iff (year month i : Int) :
    isCurrentMonth year month i = false ↔
      (i < startingDay year month ∨ startingDay year month + daysInMonth year month ≤ i) := by
  unfold isCurrentMonth
  split_ifs <;> simp <;> omega

theorem totalCells_bounds (year month : Int) :
    startingDay year month + daysInMonth year month ≤ totalCells year month ∧
      totalCells year month < startingDay year month + daysInMonth year month + 7 := by
  unfold totalCells ceilDiv7
  omega

/-- The calendar dates of the cells of the grid, by position, in terms of the
year `MakeFullYear year` that the `Date` constructor resolves. -/
theorem cell_layout (year month : Int) (hm : 0 ≤ month ∧ month ≤ 11) (i : Int)
    (h0 : 0 ≤ i) (h1 : i < totalCells year month) :
    (startingDay year month ≤ i → i < startingDay year month + daysInMonth year month →
      (cellDate year month i).civil =
        (MakeFullYear year, month, i - startingDay year month + 1)) ∧
    (i < startingDay year month →
      (cellDate year month i).civil =
        ((prevMonth (MakeFullYear year) month).1, (prevMonth (MakeFullYear year) month).2,
          daysInPrevMonth year month - startingDay year month + i + 1)) ∧
    (startingDay year month + daysInMonth year month ≤ i →
      (cellDate year month i).civil =
        ((nextMonth (MakeFullYear year) month).1, (nextMonth (MakeFullYear year) month).2,
          i - startingDay year month - daysInMonth year month + 1)) := by
  have hs := startingDay_range year month
  have hT := totalCells_bounds year month
  have hd := daysInMonth_eq year month hm
  have hp := daysInPrevMonth_eq year month hm
  have hl := monthLength_pos (MakeFullYear year) month
  have hlp := monthLength_pos (prevMonth (MakeFullYear year) month).1
    (prevMonth (MakeFullYear year) month).2
  have hln := monthLength_pos (nextMonth (MakeFullYear year) month).1
    (nextMonth (MakeFullYear year) month).2
  refine ⟨fun a b => ?_, fun a => ?_, fun a => ?_⟩
  · have e : cellDate year month i = newDate year month (i - startingDay year month + 1) := by
      unfold cellDate
      rw [if_neg (by omega), if_neg (by omega)]
    obtain ⟨f1, f2, f3⟩ := fields_MakeDay (y := MakeFullYear year) (m := month)
      (d := i - startingDay year month + 1) hm ⟨by omega, by omega⟩
    simp only [e, JSDate.civil, JSDate.getFullYear, JSDate.getMonth, JSDate.getDate, newDate,
      f1, f2, f3]
  · have e : cellDate year month i = newDate year (month - 1)
        (daysInPrevMonth year month - startingDay year month + i + 1) := by
      unfold cellDate
      rw [if_pos a]
    obtain ⟨f1, f2, f3⟩ := fields_MakeDay (y := (prevMonth (MakeFullYear year) month).1)
      (m := (prevMonth (MakeFullYear year) month).2)
      (d := daysInPrevMonth year month - startingDay year month + i + 1)
      (prevMonth_range hm) ⟨by omega, by omega⟩
    simp only [e, JSDate.civil, JSDate.getFullYear, JSDate.getMonth, JSDate.getDate, newDate,
      MakeDay_prevMonth hm, f1, f2, f3]
  · have e : cellDate year month i = newDate year (month + 1)
        (i - startingDay year month - daysInMonth year month + 1) := by
      unfold cellDate
      rw [if_neg (by omega), if_pos (by omega)]
    obtain ⟨f1, f2, f3⟩ := fields_MakeDay (y := (nextMonth (MakeFullYear year) month).1)
      (m := (nextMonth (MakeFullYear year) month).2)
      (d := i - startingDay year month - daysInMonth year month + 1)
      (nextMonth_range hm) ⟨by omega, by omega⟩
    simp only [e, JSDate.civil, JSDate.getFullYear, JSDate.getMonth, JSDate.getDate, newDate,
      MakeDay_nextMonth hm, f1, f2, f3]

/-! ## Results on the calendar grid -/

/-- C1 (failing input): for February 2021, which has 28 days and starts on a
Monday, `renderCalendar` computes `startingDay` 0 and `daysInMonth` 28 and
generates 28 cells, neither 35 nor 42, although the comment on `totalCells` in
the source says the count is always 35 or 42; the loop run in UTC gives the same
28 cells. -/
theorem totalCells_february_2021 :
    (0 : Int) ≤ 1 ∧ (1 : Int) ≤ 11 ∧ startingDay 2021 1 = 0 ∧ daysInMonth 2021 1 = 28 ∧
      totalCells 2021 1 = 28 ∧ ¬(totalCells 2021 1 = 35 ∨ totalCells 2021 1 = 42) ∧
      (renderCells [] 2021 1 (newDate 2021 1 10)).length = 28 ∧
      totalCellsIn (fixedZone 0) 2021 1 = some 28 ∧
      (cellsIn (fixedZone 0) 2021 1).length = 28 := by
  decide

/-- The count of cells on the local time line: for every year and month index
0..11, `totalCells` is 28, 35 or 42, it is 28 exactly when the month has 28 days and starts on a Monday, and it is
the smallest multiple of 7 that is at least `startingDay + daysInMonth`;
`startingDay` is the Monday-based weekday index of `firstDay`, the 1st of the
month, and `daysInMonth` is the number of days of the month of `firstDay`; for a
year outside 0..99 `firstDay` is the 1st of month `month` of year `year`. -/
theorem totalCells_least_week_multiple (events : List CalendarEvent) (today : JSDate)
    (year month : Int) (hm : 0 ≤ month ∧ month ≤ 11) :
    ((renderCells events year month today).length : Int) = totalCells year month ∧
      (totalCells year month = 28 ∨ totalCells year month = 35 ∨ totalCells year month = 42) ∧
      (totalCells year month = 28 ↔
        startingDay year month = 0 ∧ daysInMonth year month = 28) ∧
      7 ∣ totalCells year month ∧
      startingDay year month + daysInMonth year month ≤ totalCells year month ∧
      (∀ k : Int, 7 ∣ k → startingDay year month + daysInMonth year month ≤ k →
        totalCells year month ≤ k) ∧
      startingDay year month = mondayIndex (newDate year month 1).day ∧
      (newDate year month 1).getMonth = month ∧ (newDate year month 1).getDate = 1 ∧
      daysInMonth year month =
        monthLength (newDate year month 1).getFullYear (newDate year month 1).getMonth ∧
      (year < 0 ∨ 99 < year → (newDate year month 1).civil = (year, month, 1)) := by
  have hc := totalCells_cases year month hm
  have hl := totalCells_least year month
  have hf := firstDay_civil year month hm
  simp only [JSDate.civil, Prod.mk.injEq] at hf
  obtain ⟨f1, f2, f3⟩ := hf
  refine ⟨?_, hc.1, hc.2, hl.1, hl.2.1, hl.2.2, startingDay_eq year month, f2, f3, ?_, ?_⟩
  · rw [renderCells_length]
    have := hc.1
    omega
  · rw [f1, f2]
    exact daysInMonth_eq year month hm
  · intro hy
    rw [firstDay_civil year month hm, MakeFullYear_of_not_two_digit hy]

/-- The count of cells at March 2024: 35 cells for 4 leading days and 31 days. -/
theorem totalCells_least_week_multiple_witness :
    ((0 : Int) ≤ 2 ∧ (2 : Int) ≤ 11) ∧ totalCells 2024 2 = 35 ∧ startingDay 2024 2 = 4 ∧
    daysInMonth 2024 2 = 31 ∧
    ((renderCells [] (2024 : Int) (2 : Int) (newDate 2024 2 15)).length : Int) = totalCells (2024 : Int) (2 : Int) ∧
      (totalCells (2024 : Int) (2 : Int) = 28 ∨ totalCells (2024 : Int) (2 : Int) = 35 ∨ totalCells (2024 : Int) (2 : Int) = 42) ∧
      (totalCells (2024 : Int) (2 : Int) = 28 ↔
        startingDay (2024 : Int) (2 : Int) = 0 ∧ daysInMonth (2024 : Int) (2 : Int) = 28) ∧
      7 ∣ totalCells (2024 : Int) (2 : Int) ∧
      startingDay (2024 : Int) (2 : Int) + daysInMonth (2024 : Int) (2 : Int) ≤ totalCells (2024 : Int) (2 : Int) ∧
      (∀ k : Int, 7 ∣ k → startingDay (2024 : Int) (2 : Int) + daysInMonth (2024 : Int) (2 : Int) ≤ k →
        totalCells (2024 : Int) (2 : Int) ≤ k) ∧
      startingDay (2024 : Int) (2 : Int) = mondayIndex (newDate (2024 : Int) (2 : Int) 1).day ∧
      (newDate (2024 : Int) (2 : Int) 1).getMonth = (2 : Int) ∧ (newDate (2024 : Int) (2 : Int) 1).getDate = 1 ∧
      daysInMonth (2024 : Int) (2 : Int) =
        monthLength (newDate (2024 : Int) (2 : Int) 1).getFullYear (newDate (2024 : Int) (2 : Int) 1).getMonth ∧
      ((2024 : Int) < 0 ∨ 99 < (2024 : Int) → (newDate (2024 : Int) (2 : Int) 1).civil = ((2024 : Int), (2 : Int), 1)) :=
  ⟨by decide, by decide, by decide, by decide,
    totalCells_least_week_multiple [] (newDate 2024 2 15) 2024 2 (by decide)⟩

/-- Contiguity on the local time line: for every year, month index 0..11 and
index `i` with `i + 1` below `totalCells`, the cells `i` and `i + 1` that `renderCalendar` generates are dated
one day apart: the day number of cell `i + 1` is one more, both dates are local
midnights, and the calendar date (year, month, day of the month) of cell `i + 1`
is the day after that of cell `i`, also across the boundaries of the months and
of the year. -/
theorem cells_date_contiguous (events : List CalendarEvent) (today : JSDate)
    (year month : Int) (i : Nat) (hm : 0 ≤ month ∧ month ≤ 11)
    (h1 : (i : Int) + 1 < totalCells year month) :
    ∃ c c2 : DayCell, (renderCells events year month today)[i]? = some c ∧
      (renderCells events year month today)[i + 1]? = some c2 ∧
      c.date = cellDate year month i ∧
      c2.date.day = c.date.day + 1 ∧
      c2.date.timeInDay = c.date.timeInDay ∧
      c2.date.civil = nextDay c.date.civil := by
  refine ⟨renderCell events year month today i, renderCell events year month today (i + 1 : Nat),
    renderCells_getElem? events year month today i (by omega),
    renderCells_getElem? events year month today (i + 1) (by push_cast; omega), rfl, ?_⟩
  simp only [renderCell, Nat.cast_add, Nat.cast_one]
  have e1 := cellDate_day year month hm (i + 1)
  have e2 := cellDate_day year month hm i
  have t1 := cellDate_timeInDay year month (i + 1)
  have t2 := cellDate_timeInDay year month i
  have hd : (cellDate year month (i + 1)).day = (cellDate year month i).day + 1 := by omega
  refine ⟨hd, by rw [t1, t2], ?_⟩
  have c := civil_succ (cellDate year month i).day (cellDate year month i).timeInDay
  have e3 : cellDate year month (i + 1) =
      JSDate.mk ((cellDate year month i).day + 1) (cellDate year month i).timeInDay := by
    cases h : cellDate year month (i + 1) with
    | mk dd tt =>
      rw [h] at hd t1
      simp only at hd t1
      rw [hd, t1, t2]
  rw [e3, c]

/-- Contiguity at the turn of the year: in the grid of December 2024 cell 36 is dated
31 December 2024 and cell 37 is dated 1 January 2025. -/
theorem cells_date_contiguous_witness :
    (cellDate 2024 11 36).civil = (2024, 11, 31) ∧ (cellDate 2024 11 37).civil = (2025, 0, 1) ∧
      ∃ c c2 : DayCell, (renderCells [] 2024 11 (newDate 2024 11 5))[36]? = some c ∧
        (renderCells [] 2024 11 (newDate 2024 11 5))[36 + 1]? = some c2 ∧
        c.date = cellDate 2024 11 (36 : Nat) ∧
        c2.date.day = c.date.day + 1 ∧
        c2.date.timeInDay = c.date.timeInDay ∧
        c2.date.civil = nextDay c.date.civil :=
  ⟨by decide, by decide,
    cells_date_contiguous [] (newDate 2024 11 5) 2024 11 36 (by decide) (by decide)⟩

/-- The layout of the grid for a year that the `Date` constructor takes as it is
(any year outside 0..99), with `s` the Monday-based weekday index of the 1st and
`d` the number of days of the month: cell `i` is flagged in-current-month exactly
when `s ≤ i < s + d`, and is then day `i - s + 1` of the month; a cell with
`i < s` is one of the last `s` days of the previous month, a cell with
`i ≥ s + d` is day `i - s - d + 1` of the next month, both flagged as not in the
current month. -/
theorem cells_layout_full_year (year month i : Int) (hy : year < 0 ∨ 99 < year)
    (hm : 0 ≤ month ∧ month ≤ 11) (h0 : 0 ≤ i) (h1 : i < totalCells year month) :
    startingDay year month = mondayIndex (MakeDay year month 1) ∧
    daysInMonth year month = monthLength year month ∧
    (isCurrentMonth year month i = true ↔
      startingDay year month ≤ i ∧ i < startingDay year month + daysInMonth year month) ∧
    (startingDay year month ≤ i → i < startingDay year month + daysInMonth year month →
      (cellDate year month i).civil = (year, month, i - startingDay year month + 1)) ∧
    (i < startingDay year month → isCurrentMonth year month i = false ∧
      ∃ k : Int, (cellDate year month i).civil =
          ((prevMonth year month).1, (prevMonth year month).2, k) ∧
        monthLength (prevMonth year month).1 (prevMonth year month).2 -
          startingDay year month < k ∧
        k ≤ monthLength (prevMonth year month).1 (prevMonth year month).2) ∧
    (startingDay year month + daysInMonth year month ≤ i →
      isCurrentMonth year month i = false ∧
      (cellDate year month i).civil =
        ((nextMonth year month).1, (nextMonth year month).2,
          i - startingDay year month - daysInMonth year month + 1)) := by
  have hY := MakeFullYear_of_not_two_digit hy
  have hl := cell_layout year month hm i h0 h1
  have hd := daysInMonth_eq year month hm
  have hp := daysInPrevMonth_eq year month hm
  have hs := startingDay_eq year month
  rw [hY] at hl hd hp
  simp only [newDate, hY] at hs
  refine ⟨hs, hd, isCurrentMonth_iff year month i, hl.1, fun a => ⟨?_, ?_⟩, fun a => ⟨?_, hl.2.2 a⟩⟩
  · exact (isCurrentMonth_false_iff year month i).2 (Or.inl a)
  · exact ⟨_, hl.2.1 a, by omega, by omega⟩
  · exact (isCurrentMonth_false_iff year month i).2 (Or.inr a)

/-- C3 (failing input): one `navigateMonth(-1)` from 15 January of the year 100
displays December of the year 99.  The 1st of December 99 is a Tuesday
(Monday-based index 1), but `renderCalendar` computes `startingDay` 2, flags
cell 1 as not in the month and dates its first in-month cell, cell 2,
1 December 1999: `new Date(99, 11, 1)` reads the year 99 as 1999. -/
theorem grid_of_december_99_is_december_1999 :
    displayed (appShowing (JSDate.mk (MakeDay 100 0 15) 0)) = (100, 0) ∧
      displayed (navigateMonth (-1) (appShowing (JSDate.mk (MakeDay 100 0 15) 0))) = (99, 11) ∧
      mondayIndex (MakeDay 99 11 1) = 1 ∧ startingDay 99 11 = 2 ∧
      isCurrentMonth 99 11 1 = false ∧ isCurrentMonth 99 11 2 = true ∧
      (cellDate 99 11 2).civil = (1999, 11, 1) := by
  decide

/-- C10 (as stated, refuted): January 2024 starts on a Monday, so cell 0 is already
in the month and no index of the grid has the flag going from false to true. -/
theorem no_false_to_true_in_january_2024 :
    startingDay 2024 0 = 0 ∧
      (cellsIn (fixedZone 0) 2024 0).map (fun c => c.2) =
        List.replicate 31 true ++ List.replicate 4 false ∧
      ¬∃ i : Int, 1 ≤ i ∧ i < totalCells 2024 0 ∧
        isCurrentMonth 2024 0 (i - 1) = false ∧ isCurrentMonth 2024 0 i = true := by
  have hs : startingDay 2024 0 = 0 := by decide
  have hd : daysInMonth 2024 0 = 31 := by decide
  have hT : totalCells 2024 0 = 35 := by decide
  refine ⟨hs, by decide, ?_⟩
  rintro ⟨i, h1, h2, h3, h4⟩
  rw [isCurrentMonth_false_iff] at h3
  rw [isCurrentMonth_iff] at h4
  omega

/-- The flag on the local time line: for every year and month index 0..11, with
`s = startingDay` and `d = daysInMonth`, the in-current-month cells are exactly the cells `s` to
`s + d - 1`.  The flag goes from false (cell `i - 1`) to true (cell `i`) only at
`i = s`, so at exactly one index when the month does not start on a Monday
(`s ≥ 1`) and at none when it does; it goes from true (cell `j`) to false (cell
`j + 1`) only at `j = s + d - 1`, so at exactly one index when the month does
not end on a Sunday (`s + d < totalCells`) and at none when it does.  Cell `s`
is dated `new Date(year, month, 1)`, the first day of the month, and cell
`s + d - 1` is dated its last day; for a year outside 0..99 these are the first
and last day of month `month` of `year`. -/
theorem month_flag_transitions (year month : Int) (hm : 0 ≤ month ∧ month ≤ 11) :
    (∀ i : Int, isCurrentMonth year month i = true ↔
      startingDay year month ≤ i ∧ i < startingDay year month + daysInMonth year month) ∧
    (∀ i : Int, 1 ≤ i → i < totalCells year month →
      ((isCurrentMonth year month (i - 1) = false ∧ isCurrentMonth year month i = true) ↔
        i = startingDay year month)) ∧
    (∀ j : Int, 0 ≤ j → j + 1 < totalCells year month →
      ((isCurrentMonth year month j = true ∧ isCurrentMonth year month (j + 1) = false) ↔
        j = startingDay year month + daysInMonth year month - 1)) ∧
    ((∃ i : Int, 1 ≤ i ∧ i < totalCells year month ∧
        isCurrentMonth year month (i - 1) = false ∧ isCurrentMonth year month i = true) ↔
      1 ≤ startingDay year month) ∧
    ((∃ j : Int, 0 ≤ j ∧ j + 1 < totalCells year month ∧
        isCurrentMonth year month j = true ∧ isCurrentMonth year month (j + 1) = false) ↔
      startingDay year month + daysInMonth year month < totalCells year month) ∧
    (0 ≤ startingDay year month ∧
      startingDay year month + daysInMonth year month ≤ totalCells year month) ∧
    (cellDate year month (startingDay year month) = newDate year month 1 ∧
      (cellDate year month (startingDay year month)).getMonth = month ∧
      (cellDate year month (startingDay year month)).getDate = 1) ∧
    ((cellDate year month (startingDay year month + daysInMonth year month - 1)).getMonth =
        month ∧
      (cellDate year month (startingDay year month + daysInMonth year month - 1)).getDate =
        daysInMonth year month ∧
      daysInMonth year month = monthLength
        (cellDate year month (startingDay year month + daysInMonth year month - 1)).getFullYear
        month) ∧
    (year < 0 ∨ 99 < year →
      (cellDate year month (startingDay year month)).civil = (year, month, 1) ∧
      (cellDate year month (startingDay year month + daysInMonth year month - 1)).civil =
        (year, month, monthLength year month)) := by
  have hs := startingDay_range year month
  have hT := totalCells_bounds year month
  have hd := daysInMonth_eq year month hm
  have hl := monthLength_pos (MakeFullYear year) month
  have c1 := (cell_layout year month hm (startingDay year month) (by omega) (by omega)).1
    (by omega) (by omega)
  have c2 := (cell_layout year month hm
    (startingDay year month + daysInMonth year month - 1) (by omega) (by omega)).1
    (by omega) (by omega)
  have e1 : startingDay year month - startingDay year month + 1 = 1 := by omega
  have e2 : startingDay year month + daysInMonth year month - 1 - startingDay year month + 1 =
      daysInMonth year month := by omega
  rw [e1] at c1
  rw [e2] at c2
  simp only [JSDate.civil, Prod.mk.injEq] at c1 c2
  refine ⟨isCurrentMonth_iff year month, ?_, ?_, ?_, ?_, ⟨hs.1, hT.1⟩, ⟨?_, c1.2.1, c1.2.2⟩,
    ⟨c2.2.1, c2.2.2, ?_⟩, ?_⟩
  · intro i h1 h2
    rw [isCurrentMonth_false_iff, isCurrentMonth_iff]
    omega
  · intro j h1 h2
    rw [isCurrentMonth_false_iff, isCurrentMonth_iff]
    omega
  · constructor
    · rintro ⟨i, h1, h2, h3, h4⟩
      rw [isCurrentMonth_false_iff] at h3
      rw [isCurrentMonth_iff] at h4
      omega
    · intro h
      refine ⟨startingDay year month, h, by omega, ?_, ?_⟩
      · rw [isCurrentMonth_false_iff]; omega
      · rw [isCurrentMonth_iff]; omega
  · constructor
    · rintro ⟨j, h1, h2, h3, h4⟩
      rw [isCurrentMonth_false_iff] at h4
      rw [isCurrentMonth_iff] at h3
      omega
    · intro h
      refine ⟨startingDay year month + daysInMonth year month - 1, by omega, by omega, ?_, ?_⟩
      · rw [isCurrentMonth_iff]; omega
      · rw [isCurrentMonth_false_iff]; omega
  · unfold cellDate
    rw [if_neg (by omega), if_neg (by omega), e1]
  · rw [c2.1]
    exact hd
  · intro hy
    have hY := MakeFullYear_of_not_two_digit hy
    rw [hY] at c1 c2 hd
    simp only [JSDate.civil, Prod.mk.injEq]
    exact ⟨⟨c1.1, c1.2.1, c1.2.2⟩, c2.1, c2.2.1, by rw [c2.2.2, hd]⟩

/-- The flag at February 2024: the month starts on a Thursday (`s = 3`) and
has 29 days, and the grid has 35 cells. -/
theorem month_flag_transitions_witness :
    ((0 : Int) ≤ 1 ∧ (1 : Int) ≤ 11) ∧ startingDay 2024 1 = 3 ∧ daysInMonth 2024 1 = 29 ∧
    totalCells 2024 1 = 35 ∧
    (∀ i : Int, isCurrentMonth (2024 : Int) (1 : Int) i = true ↔
      startingDay (2024 : Int) (1 : Int) ≤ i ∧ i < startingDay (2024 : Int) (1 : Int) + daysInMonth (2024 : Int) (1 : Int)) ∧
    (∀ i : Int, 1 ≤ i → i < totalCells (2024 : Int) (1 : Int) →
      ((isCurrentMonth (2024 : Int) (1 : Int) (i - 1) = false ∧ isCurrentMonth (2024 : Int) (1 : Int) i = true) ↔
        i = startingDay (2024 : Int) (1 : Int))) ∧
    (∀ j : Int, 0 ≤ j → j + 1 < totalCells (2024 : Int) (1 : Int) →
      ((isCurrentMonth (2024 : Int) (1 : Int) j = true ∧ isCurrentMonth (2024 : Int) (1 : Int) (j + 1) = false) ↔
        j = startingDay (2024 : Int) (1 : Int) + daysInMonth (2024 : Int) (1 : Int) - 1)) ∧
    ((∃ i : Int, 1 ≤ i ∧ i < totalCells (2024 : Int) (1 : Int) ∧
        isCurrentMonth (2024 : Int) (1 : Int) (i - 1) = false ∧ isCurrentMonth (2024 : Int) (1 : Int) i = true) ↔
      1 ≤ startingDay (2024 : Int) (1 : Int)) ∧
    ((∃ j : Int, 0 ≤ j ∧ j + 1 < totalCells (2024 : Int) (1 : Int) ∧
        isCurrentMonth (2024 : Int) (1 : Int) j = true ∧ isCurrentMonth (2024 : Int) (1 : Int) (j + 1) = false) ↔
      startingDay (2024 : Int) (1 : Int) + daysInMonth (2024 : Int) (1 : Int) < totalCells (2024 : Int) (1 : Int)) ∧
    (0 ≤ startingDay (2024 : Int) (1 : Int) ∧
      startingDay (2024 : Int) (1 : Int) + daysInMonth (2024 : Int) (1 : Int) ≤ totalCells (2024 : Int) (1 : Int)) ∧
    (cellDate (2024 : Int) (1 : Int) (startingDay (2024 : Int) (1 : Int)) = newDate (2024 : Int) (1 : Int) 1 ∧
      (cellDate (2024 : Int) (1 : Int) (startingDay (2024 : Int) (1 : Int))).getMonth = (1 : Int) ∧
      (cellDate (2024 : Int) (1 : Int) (startingDay (2024 : Int) (1 : Int))).getDate = 1) ∧
    ((cellDate (2024 : Int) (1 : Int) (startingDay (2024 : Int) (1 : Int) + daysInMonth (2024 : Int) (1 : Int) - 1)).getMonth =
        (1 : Int) ∧
      (cellDate (2024 : Int) (1 : Int) (startingDay (2024 : Int) (1 : Int) + daysInMonth (2024 : Int) (1 : Int) - 1)).getDate =
        daysInMonth (2024 : Int) (1 : Int) ∧
      daysInMonth (2024 : Int) (1 : Int) = monthLength
        (cellDate (2024 : Int) (1 : Int) (startingDay (2024 : Int) (1 : Int) + daysInMonth (2024 : Int) (1 : Int) - 1)).getFullYear
        (1 : Int)) ∧
    ((2024 : Int) < 0 ∨ 99 < (2024 : Int) →
      (cellDate (2024 : Int) (1 : Int) (startingDay (2024 : Int) (1 : Int))).civil = ((2024 : Int), (1 : Int), 1) ∧
      (cellDate (2024 : Int) (1 : Int) (startingDay (2024 : Int) (1 : Int) + daysInMonth (2024 : Int) (1 : Int) - 1)).civil =
        ((2024 : Int), (1 : Int), monthLength (2024 : Int) (1 : Int))) :=
  ⟨by decide, by decide, by decide, by decide, month_flag_transitions 2024 1 (by decide)⟩

/-! ## Results on the events of a cell -/

theorem char_toNat_inj {a b : Char} (h : a.toNat = b.toNat) : a = b := by
  have := congrArg Char.ofNat h
  simpa using this

theorem char_lt_iff (a b : Char) : a < b ↔ a.toNat < b.toNat := Iff.rfl

/-- The comparison of `localeCompare` is the lexicographic order of the character
sequences. -/
theorem compareChars_neg_iff : ∀ a b : List Char, compareChars a b < 0 ↔ List.Lex (· < ·) a b
  | [], [] => by simp [compareChars]
  | [], _ :: _ => by simp [compareChars, List.Lex.nil]
  | _ :: _, [] => by simp [compareChars]
  | a :: as, b :: bs => by
    unfold compareChars
    split_ifs with h1 h2
    · simp only [Int.reduceNeg, Left.neg_neg_iff, zero_lt_one, true_iff]
      exact List.Lex.rel ((char_lt_iff a b).2 h1)
    · simp only [Int.lt_irrefl, false_iff, Nat.not_ofNat_lt_one, Int.reduceLT]
      intro h
      cases h with
      | cons h => exact absurd h1 (by omega)
      | rel h => exact h1 ((char_lt_iff a b).1 h)
    · have e : a = b := char_toNat_inj (by omega)
      subst e
      rw [compareChars_neg_iff as bs, List.Lex.cons_iff]

theorem compareChars_swap : ∀ a b : List Char, compareChars b a = -compareChars a b
  | [], [] => by simp [compareChars]
  | [], _ :: _ => by simp [compareChars]
  | _ :: _, [] => by simp [compareChars]
  | a :: as, b :: bs => by
    unfold compareChars
    have ih := compareChars_swap as bs
    split_ifs <;> omega

/-- A negative result of `localeCompare` is the strict order of strings. -/
theorem localeCompare_neg_iff (a b : String) : localeCompare a b < 0 ↔ a < b := by
  rw [String.lt_iff_toList_lt]
  exact compareChars_neg_iff a.toList b.toList

/-- A result of `localeCompare` that is not positive is the order of strings. -/
theorem localeCompare_nonpos_iff (a b : String) : localeCompare a b ≤ 0 ↔ a ≤ b := by
  have h := localeCompare_neg_iff b a
  have hs : localeCompare b a = -localeCompare a b := compareChars_swap _ _
  have h2 : a ≤ b ↔ ¬b < a := not_lt.symm
  rw [h2, ← h, hs]
  omega

/-- What the comparator decides: `a` may stay before `b` when `b` has no time, or
both have one and that of `a` is not the later. -/
theorem sortLE_iff (a b : CalendarEvent) :
    sortLE a b ↔ (b.time = "" ∨ (a.time ≠ "" ∧ b.time ≠ "" ∧ a.time ≤ b.time)) := by
  unfold sortLE sortCompare
  split_ifs with h1 h2 h3
  · simp [h1.2]
  · simp [h2]
    intro h
    exact absurd ⟨h2, h⟩ h1
  · simp [h3]
  · rw [localeCompare_nonpos_iff]
    simp [h2, h3]

instance sortLE_total : IsTotal CalendarEvent sortLE := ⟨fun a b => by
  rw [sortLE_iff, sortLE_iff]
  by_cases ha : a.time = "" <;> by_cases hb : b.time = "" <;> simp [ha, hb]
  exact le_total _ _⟩

instance sortLE_trans : IsTrans CalendarEvent sortLE := ⟨fun a b c => by
  rw [sortLE_iff, sortLE_iff, sortLE_iff]
  rintro (h1 | ⟨h1, h2, h3⟩) (h4 | ⟨h4, h5, h6⟩)
  · exact Or.inl h4
  · exact absurd h1 h4
  · exact Or.inl h4
  · exact Or.inr ⟨h1, h5, le_trans h3 h6⟩⟩

theorem sortLE_of_time_eq {a b : CalendarEvent} (h : a.time = b.time) : sortLE a b := by
  rw [sortLE_iff]
  by_cases hb : b.time = ""
  · exact Or.inl hb
  · exact Or.inr ⟨by rw [h]; exact hb, hb, le_of_eq h⟩

/-- What `isClockTime` accepts: four digits around a colon, the hour at most 23
and the minute at most 59. -/
theorem isClockTime_shape {s : String} (h : isClockTime s = true) :
    ∃ a b d e : Char, s.toList = [a, b, ':', d, e] ∧
      (48 ≤ a.toNat ∧ a.toNat ≤ 57) ∧ (48 ≤ b.toNat ∧ b.toNat ≤ 57) ∧
      (48 ≤ d.toNat ∧ d.toNat ≤ 57) ∧ (48 ≤ e.toNat ∧ e.toNat ≤ 57) ∧
      10 * (a.toNat - 48) + (b.toNat - 48) ≤ 23 ∧
      10 * (d.toNat - 48) + (e.toNat - 48) ≤ 59 := by
  unfold isClockTime at h
  split at h
  · rename_i a b c d e heq
    simp only [Bool.and_eq_true, decide_eq_true_eq, isDigitChar] at h
    obtain ⟨⟨⟨⟨⟨⟨ha, hb⟩, hc⟩, hd⟩, he⟩, hh⟩, hmin⟩ := h
    subst hc
    exact ⟨a, b, d, e, heq, ha, hb, hd, he, hh, hmin⟩
  · exact absurd h (by simp)

/-- On two clock times `localeCompare` orders by the time of the day, and it
returns 0 exactly when the two strings are equal. -/
theorem localeCompare_clockTimes {s t : String} (hs : isClockTime s = true)
    (ht : isClockTime t = true) :
    (localeCompare s t ≤ 0 ↔ clockMinutes s ≤ clockMinutes t) ∧
      (localeCompare s t = 0 ↔ s = t) := by
  obtain ⟨a, b, d, e, hl, ha, hb, hd, he, hh, hm⟩ := isClockTime_shape hs
  obtain ⟨a2, b2, d2, e2, hl2, ha2, hb2, hd2, he2, hh2, hm2⟩ := isClockTime_shape ht
  have hst : s = t ↔ s.toList = t.toList := by
    constructor
    · intro h; rw [h]
    · intro h; exact String.ext h
  rw [hst]
  simp only [localeCompare, clockMinutes, hl, hl2, compareChars, lt_irrefl, if_false,
    List.cons.injEq, true_and, and_true]
  constructor
  · split_ifs <;> omega
  · constructor
    · intro h
      have key : a.toNat = a2.toNat ∧ b.toNat = b2.toNat ∧ d.toNat = d2.toNat ∧
          e.toNat = e2.toNat := by
        split_ifs at h <;> omega
      exact ⟨char_toNat_inj key.1, char_toNat_inj key.2.1,
        char_toNat_inj key.2.2.1, char_toNat_inj key.2.2.2⟩
    · rintro ⟨h1, h2, h3, h4⟩
      subst h1 h2 h3 h4
      simp

/-- The comparator returns 0 on two events, each with a clock time or no time,
exactly when their times are equal. -/
theorem sortCompare_eq_zero_iff {a b : CalendarEvent}
    (ha : a.time = "" ∨ isClockTime a.time = true)
    (hb : b.time = "" ∨ isClockTime b.time = true) :
    sortCompare a b = 0 ↔ a.time = b.time := by
  unfold sortCompare
  split_ifs with h1 h2 h3
  · simp [h1.1, h1.2]
  · simp only [one_ne_zero, false_iff]
    intro h
    exact h1 ⟨h2, by rw [← h]; exact h2⟩
  · simp only [Int.reduceNeg, neg_eq_zero, one_ne_zero, false_iff]
    intro h
    exact h2 (by rw [h]; exact h3)
  · rcases ha with ha | ha
    · exact absurd ha h2
    rcases hb with hb | hb
    · exact absurd hb h3
    exact (localeCompare_clockTimes ha hb).2

/-- `formatDate` pads the month and the day to two digits and writes the year as
it is: 1 February 2024 gives `2024-02-01`, 15 December of the year 99 gives
`99-12-15`. -/
theorem formatDate_examples :
    formatDate (newDate 2024 1 1) = "2024-02-01" ∧
      formatDate (JSDate.mk (MakeDay 99 11 15) 0) = "99-12-15" := by
  decide

/-- C4: for every event store whose events have a clock time `HH:MM` or no time,
and every date string, the events rendered for that date are a permutation of
`getEventsForDate`; no event without a time stands before an event with a time;
the events with a time are in ascending order of their times, as strings and as
times of the day; the comparator ties two events exactly when their times are
equal, and two such events keep the order they have in the store; every day
cell shows this list for its own date; and the times 09:00, 08:00 and none
render as 08:00, 09:00, none. -/
theorem cell_events_sorted_stable (events : List CalendarEvent) (dateStr : String)
    (ht : ∀ e ∈ events, e.time = "" ∨ isClockTime e.time = true) :
    (sortEvents (getEventsForDate events dateStr)).Perm (getEventsForDate events dateStr) ∧
    (sortEvents (getEventsForDate events dateStr)).Pairwise
      (fun a b => (a.time = "" → b.time = "") ∧
        (a.time ≠ "" → b.time ≠ "" →
          a.time ≤ b.time ∧ clockMinutes a.time ≤ clockMinutes b.time)) ∧
    (∀ a ∈ events, ∀ b ∈ events, (sortCompare a b = 0 ↔ a.time = b.time)) ∧
    (∀ a b : CalendarEvent, a.time = b.time →
      List.Sublist [a, b] (getEventsForDate events dateStr) →
      List.Sublist [a, b] (sortEvents (getEventsForDate events dateStr))) ∧
    (∀ (year month i : Int) (today : JSDate),
      (renderCell events year month today i).dateStr = formatDate (cellDate year month i) ∧
      (renderCell events year month today i).events =
        sortEvents (getEventsForDate events (formatDate (cellDate year month i)))) ∧
    sortEvents (getEventsForDate
        [sampleEvent "1" "09:00", sampleEvent "2" "08:00", sampleEvent "3" ""] "2024-02-01") =
      [sampleEvent "2" "08:00", sampleEvent "1" "09:00", sampleEvent "3" ""] := by
  have hperm := List.perm_insertionSort sortLE (getEventsForDate events dateStr)
  have hmem : ∀ e ∈ sortEvents (getEventsForDate events dateStr),
      e.time = "" ∨ isClockTime e.time = true := by
    intro e he
    have h1 : e ∈ getEventsForDate events dateStr := hperm.subset he
    exact ht e (List.mem_of_mem_filter h1)
  refine ⟨hperm, ?_, fun a ha b hb => sortCompare_eq_zero_iff (ht a ha) (ht b hb), ?_,
    fun _ _ _ _ => ⟨rfl, rfl⟩, by decide⟩
  · have h := List.sorted_insertionSort sortLE (getEventsForDate events dateStr)
    refine List.Pairwise.imp_of_mem ?_ h
    intro a b hma hmb hab
    have hab2 := hab
    rw [sortLE_iff] at hab
    rcases hab with hb | ⟨ha, hb, hle⟩
    · exact ⟨fun _ => hb, fun _ h => absurd hb h⟩
    · refine ⟨fun h => absurd h ha, fun _ _ => ⟨hle, ?_⟩⟩
      have ca : isClockTime a.time = true := (hmem a hma).resolve_left ha
      have cb : isClockTime b.time = true := (hmem b hmb).resolve_left hb
      rw [← (localeCompare_clockTimes ca cb).1, localeCompare_nonpos_iff]
      exact hle
  · intro a b hab hsub
    exact List.pair_sublist_insertionSort (sortLE_of_time_eq hab) hsub

/-- C4, on the times 09:00, 08:00 and none: every time is a clock time or empty,
and the three events render in the order 08:00, 09:00, none. -/
theorem cell_events_sorted_stable_witness :
    (∀ e ∈ sampleTimedEvents, e.time = "" ∨ isClockTime e.time = true) ∧
    sortEvents (getEventsForDate sampleTimedEvents "2024-02-01") =
      [sampleEvent "2" "08:00", sampleEvent "1" "09:00", sampleEvent "3" ""] ∧
    (sortEvents (getEventsForDate sampleTimedEvents "2024-02-01")).Perm (getEventsForDate sampleTimedEvents "2024-02-01") ∧
    (sortEvents (getEventsForDate sampleTimedEvents "2024-02-01")).Pairwise
      (fun a b => (a.time = "" → b.time = "") ∧
        (a.time ≠ "" → b.time ≠ "" →
          a.time ≤ b.time ∧ clockMinutes a.time ≤ clockMinutes b.time)) ∧
    (∀ a ∈ sampleTimedEvents, ∀ b ∈ sampleTimedEvents, (sortCompare a b = 0 ↔ a.time = b.time)) ∧
    (∀ a b : CalendarEvent, a.time = b.time →
      List.Sublist [a, b] (getEventsForDate sampleTimedEvents "2024-02-01") →
      List.Sublist [a, b] (sortEvents (getEventsForDate sampleTimedEvents "2024-02-01"))) ∧
    (∀ (year month i : Int) (today : JSDate),
      (renderCell sampleTimedEvents year month today i).dateStr = formatDate (cellDate year month i) ∧
      (renderCell sampleTimedEvents year month today i).events =
        sortEvents (getEventsForDate sampleTimedEvents (formatDate (cellDate year month i)))) ∧
    sortEvents (getEventsForDate
        [sampleEvent "1" "09:00", sampleEvent "2" "08:00", sampleEvent "3" ""] "2024-02-01") =
      [sampleEvent "2" "08:00", sampleEvent "1" "09:00", sampleEvent "3" ""] :=
  ⟨by decide, by decide,
    cell_events_sorted_stable sampleTimedEvents "2024-02-01" (by decide)⟩

/-! ## Results on `editEvent` -/

theorem updateFirst_length (id : String) (newData : EventData) :
    ∀ l : List CalendarEvent, (updateFirst id newData l).length = l.length
  | [] => rfl
  | e :: es => by
    unfold updateFirst
    split_ifs
    · rfl
    · simp [updateFirst_length id newData es]

/-- The in-place update touches the first event with the identifier and nothing
else. -/
theorem updateFirst_spec (id : String) (newData : EventData) :
    ∀ l : List CalendarEvent, (∃ e ∈ l, e.id = id) →
      ∃ (k : Nat) (e : CalendarEvent), l[k]? = some e ∧ e.id = id ∧
        (∀ (j : Nat) (e2 : CalendarEvent), j < k → l[j]? = some e2 → e2.id ≠ id) ∧
        (updateFirst id newData l)[k]? = some (e.update newData) ∧
        (∀ j : Nat, j ≠ k → (updateFirst id newData l)[j]? = l[j]?)
  | [], h => by
    obtain ⟨e, he, _⟩ := h
    cases he
  | e :: es, h => by
    by_cases hid : e.id = id
    · refine ⟨0, e, List.getElem?_cons_zero, hid, ?_, ?_, ?_⟩
      · intro j e2 hj
        omega
      · unfold updateFirst
        rw [if_pos hid]
        exact List.getElem?_cons_zero
      · intro j hj
        unfold updateFirst
        rw [if_pos hid]
        cases j with
        | zero => exact absurd rfl hj
        | succ j => rw [List.getElem?_cons_succ, List.getElem?_cons_succ]
    · have h2 : ∃ e2 ∈ es, e2.id = id := by
        obtain ⟨e2, he2, hi2⟩ := h
        rcases List.mem_cons.1 he2 with rfl | hm
        · exact absurd hi2 hid
        · exact ⟨e2, hm, hi2⟩
      obtain ⟨k, e3, h3, h4, h5, h6, h7⟩ := updateFirst_spec id newData es h2
      refine ⟨k + 1, e3, by rw [List.getElem?_cons_succ]; exact h3, h4, ?_, ?_, ?_⟩
      · intro j e2 hj hget
        cases j with
        | zero =>
          have : e2 = e := by
            simp only [List.getElem?_cons_zero, Option.some.injEq] at hget
            exact hget.symm
          rw [this]
          exact hid
        | succ j =>
          rw [List.getElem?_cons_succ] at hget
          exact h5 j e2 (by omega) hget
      · unfold updateFirst
        rw [if_neg hid, List.getElem?_cons_succ]
        exact h6
      · intro j hj
        unfold updateFirst
        rw [if_neg hid]
        cases j with
        | zero => rw [List.getElem?_cons_zero, List.getElem?_cons_zero]
        | succ j =>
          rw [List.getElem?_cons_succ, List.getElem?_cons_succ]
          exact h7 j (by omega)

theorem find?_isSome_of_mem (id : String) :
    ∀ l : List CalendarEvent, (∃ e ∈ l, e.id = id) →
      ∃ e, l.find? (fun e => decide (e.id = id)) = some e
  | [], h => by
    obtain ⟨e, he, _⟩ := h
    cases he
  | e :: es, h => by
    by_cases hid : e.id = id
    · exact ⟨e, by simp [List.find?, hid]⟩
    · have h2 : ∃ e2 ∈ es, e2.id = id := by
        obtain ⟨e2, he2, hi2⟩ := h
        rcases List.mem_cons.1 he2 with rfl | hm
        · exact absurd hi2 hid
        · exact ⟨e2, hm, hi2⟩
      obtain ⟨e3, h3⟩ := find?_isSome_of_mem id es h2
      exact ⟨e3, by simp [List.find?, hid, h3]⟩

/-- C6: for every store, every identifier of an event in it and every partial data
object, `editEvent(id, partialData)` changes the first event `e` with that
identifier (at index `k`) into an event with the same id in which every field
present in the data has the given value and every field absent from it has the
value it had; every event at another index, the length and the order of the
store are unchanged. -/
theorem edit_changes_only_given_fields (app : CalendarApp) (id : String)
    (partialData : EventData) (h : ∃ e ∈ app.events, e.id = id) :
    ∃ (k : Nat) (e : CalendarEvent), app.events[k]? = some e ∧ e.id = id ∧
      (∀ (j : Nat) (e2 : CalendarEvent), j < k → app.events[j]? = some e2 → e2.id ≠ id) ∧
      (editEvent id partialData app).events[k]? = some (e.update partialData) ∧
      (e.update partialData).id = e.id ∧
      (e.update partialData).title = partialData.title.getD e.title ∧
      (e.update partialData).date = partialData.date.getD e.date ∧
      (e.update partialData).time = partialData.time.getD e.time ∧
      (e.update partialData).description = partialData.description.getD e.description ∧
      (e.update partialData).category = partialData.category.getD e.category ∧
      (e.update partialData).color = partialData.color.getD e.color ∧
      (∀ j : Nat, j ≠ k → (editEvent id partialData app).events[j]? = app.events[j]?) ∧
      (editEvent id partialData app).events.length = app.events.length := by
  obtain ⟨e0, hfind⟩ := find?_isSome_of_mem id app.events h
  have hev : (editEvent id partialData app).events = updateFirst id partialData app.events := by
    unfold editEvent
    rw [hfind]
    rfl
  obtain ⟨k, e, h1, h2, h3, h4, h5⟩ := updateFirst_spec id partialData app.events h
  refine ⟨k, e, h1, h2, h3, by rw [hev]; exact h4, rfl, ?_, ?_, ?_, ?_, ?_, ?_, ?_, ?_⟩
  · cases ht : partialData.title <;> simp [CalendarEvent.update, ht]
  · cases ht : partialData.date <;> simp [CalendarEvent.update, ht]
  · cases ht : partialData.time <;> simp [CalendarEvent.update, ht]
  · cases ht : partialData.description <;> simp [CalendarEvent.update, ht]
  · cases ht : partialData.category <;> simp [CalendarEvent.update, ht]
  · cases ht : partialData.color <;> simp [CalendarEvent.update, ht]
  · intro j hj
    rw [hev]
    exact h5 j hj
  · rw [hev]
    exact updateFirst_length id partialData app.events

/-- C6, on a store of two events: giving a new title to the second event. -/
theorem edit_changes_only_given_fields_witness :
    (∃ e ∈ sampleApp.events, e.id = "2") ∧
    (editEvent "2" sampleTitleOnly sampleApp).events =
      [sampleEvent "1" "09:00", { sampleEvent "2" "08:00" with title := "Review" }] ∧
    ∃ (k : Nat) (e : CalendarEvent), sampleApp.events[k]? = some e ∧ e.id = "2" ∧
      (∀ (j : Nat) (e2 : CalendarEvent), j < k → sampleApp.events[j]? = some e2 → e2.id ≠ "2") ∧
      (editEvent "2" sampleTitleOnly sampleApp).events[k]? = some (e.update sampleTitleOnly) ∧
      (e.update sampleTitleOnly).id = e.id ∧
      (e.update sampleTitleOnly).title = sampleTitleOnly.title.getD e.title ∧
      (e.update sampleTitleOnly).date = sampleTitleOnly.date.getD e.date ∧
      (e.update sampleTitleOnly).time = sampleTitleOnly.time.getD e.time ∧
      (e.update sampleTitleOnly).description = sampleTitleOnly.description.getD e.description ∧
      (e.update sampleTitleOnly).category = sampleTitleOnly.category.getD e.category ∧
      (e.update sampleTitleOnly).color = sampleTitleOnly.color.getD e.color ∧
      (∀ j : Nat, j ≠ k → (editEvent "2" sampleTitleOnly sampleApp).events[j]? = sampleApp.events[j]?) ∧
      (editEvent "2" sampleTitleOnly sampleApp).events.length = sampleApp.events.length :=
  ⟨by decide, by decide, edit_changes_only_given_fields sampleApp "2" sampleTitleOnly (by decide)⟩

/-! ## Results on `navigateMonth` -/

/-- When the day of the month held in `currentDate` exists in the next month,
`navigateMonth(+1)` displays the next month. -/
theorem navigateMonth_next_of_fitting_day (app : CalendarApp)
    (h : app.currentDate.getDate ≤
      monthLength (nextMonth (displayed app).1 (displayed app).2).1
        (nextMonth (displayed app).1 (displayed app).2).2) :
    displayed (navigateMonth 1 app) = nextMonth (displayed app).1 (displayed app).2 ∧
      (navigateMonth 1 app).currentDate.getDate = app.currentDate.getDate := by
  have hm := MonthFromTime_range app.currentDate.day
  have hd := DateFromTime_range app.currentDate.day
  simp only [displayed, JSDate.getFullYear, JSDate.getMonth, JSDate.getDate] at h
  obtain ⟨f1, f2, f3⟩ := fields_MakeDay
    (y := (nextMonth (YearFromTime app.currentDate.day) (MonthFromTime app.currentDate.day)).1)
    (m := (nextMonth (YearFromTime app.currentDate.day) (MonthFromTime app.currentDate.day)).2)
    (d := DateFromTime app.currentDate.day) (nextMonth_range hm) ⟨hd.1, h⟩
  simp only [displayed, navigateMonth, JSDate.setMonth, JSDate.getFullYear, JSDate.getMonth,
    JSDate.getDate, MakeDay_nextMonth hm, f1, f2, f3, and_self]

/-- When the day of the month held in `currentDate` exists in the previous month,
`navigateMonth(-1)` displays the previous month. -/
theorem navigateMonth_prev_of_fitting_day (app : CalendarApp)
    (h : app.currentDate.getDate ≤
      monthLength (prevMonth (displayed app).1 (displayed app).2).1
        (prevMonth (displayed app).1 (displayed app).2).2) :
    displayed (navigateMonth (-1) app) = prevMonth (displayed app).1 (displayed app).2 ∧
      (navigateMonth (-1) app).currentDate.getDate = app.currentDate.getDate := by
  have hm := MonthFromTime_range app.currentDate.day
  have hd := DateFromTime_range app.currentDate.day
  simp only [displayed, JSDate.getFullYear, JSDate.getMonth, JSDate.getDate] at h
  obtain ⟨f1, f2, f3⟩ := fields_MakeDay
    (y := (prevMonth (YearFromTime app.currentDate.day) (MonthFromTime app.currentDate.day)).1)
    (m := (prevMonth (YearFromTime app.currentDate.day) (MonthFromTime app.currentDate.day)).2)
    (d := DateFromTime app.currentDate.day) (prevMonth_range hm) ⟨hd.1, h⟩
  have e : MonthFromTime app.currentDate.day + -1 = MonthFromTime app.currentDate.day - 1 := by
    omega
  simp only [displayed, navigateMonth, JSDate.setMonth, JSDate.getFullYear, JSDate.getMonth,
    JSDate.getDate, e, MakeDay_prevMonth hm, f1, f2, f3, and_self]

/-- C7 (failing input): from 31 January 2024 `navigateMonth(+1)` displays March
2024, not February, because `setMonth(1)` keeps the day 31 and 31 February
overflows into March; from 31 March 2024 `navigateMonth(-1)` displays March
again. -/
theorem navigate_from_day_31_skips_february :
    displayed (appShowing (newDate 2024 0 31)) = (2024, 0) ∧
      (appShowing (newDate 2024 0 31)).currentDate.getDate = 31 ∧
      displayed (navigateMonth 1 (appShowing (newDate 2024 0 31))) = (2024, 2) ∧
      (navigateMonth 1 (appShowing (newDate 2024 0 31))).currentDate.getDate = 2 ∧
      displayed (appShowing (newDate 2024 2 31)) = (2024, 2) ∧
      displayed (navigateMonth (-1) (appShowing (newDate 2024 2 31))) = (2024, 2) := by
  decide

/-- C8: for every year `y` and every day of the month held in `currentDate`, when
the displayed month is December of `y`, `navigateMonth(+1)` makes the displayed
year `y + 1` and the displayed month January (index 0); the day of the month and
the events are kept. -/
theorem navigate_from_december (app : CalendarApp) (y : Int) (h : displayed app = (y, 11)) :
    displayed (navigateMonth 1 app) = (y + 1, 0) ∧
      (navigateMonth 1 app).currentDate.getDate = app.currentDate.getDate ∧
      (navigateMonth 1 app).events = app.events := by
  have hd := DateFromTime_range app.currentDate.day
  have h1 : (displayed app).1 = y := by rw [h]
  have h2 : (displayed app).2 = 11 := by rw [h]
  have hn : nextMonth (displayed app).1 (displayed app).2 = (y + 1, 0) := by
    rw [h1, h2]
    simp [nextMonth]
  have hfit : app.currentDate.getDate ≤
      monthLength (nextMonth (displayed app).1 (displayed app).2).1
        (nextMonth (displayed app).1 (displayed app).2).2 := by
    rw [hn]
    simp only [displayed, Prod.mk.injEq, JSDate.getFullYear, JSDate.getMonth] at h
    have ht := monthTable (YearFromTime app.currentDate.day) (m := 11) (by omega)
    have ht2 := monthTable (y + 1) (m := 0) (by omega)
    rw [h.2] at hd
    simp only [JSDate.getDate]
    omega
  obtain ⟨a, b⟩ := navigateMonth_next_of_fitting_day app hfit
  rw [hn] at a
  exact ⟨a, b, rfl⟩

/-- C8, from 31 December 2024: January 2025 is displayed. -/
theorem navigate_from_december_witness :
    displayed (appShowing (newDate 2024 11 31)) = (2024, 11) ∧
      (displayed (navigateMonth 1 (appShowing (newDate 2024 11 31))) = ((2024 : Int) + 1, 0) ∧
      (navigateMonth 1 (appShowing (newDate 2024 11 31))).currentDate.getDate =
        (appShowing (newDate 2024 11 31)).currentDate.getDate ∧
      (navigateMonth 1 (appShowing (newDate 2024 11 31))).events =
        (appShowing (newDate 2024 11 31)).events) :=
  ⟨by decide, navigate_from_december (appShowing (newDate 2024 11 31)) 2024 (by decide)⟩

/-! ## Results on identifiers and on the stored value -/

theorem digitChar_value (k : Nat) (h : k < 10) : (Nat.digitChar k).toNat - 48 = k := by
  interval_cases k <;> rfl

theorem foldl_toDigitsCore (fuel : Nat) : ∀ (n : Nat) (ds : List Char), n < fuel →
    (Nat.toDigitsCore 10 fuel n ds).foldl (fun acc c => acc * 10 + (c.toNat - 48)) 0 =
      ds.foldl (fun acc c => acc * 10 + (c.toNat - 48)) n := by
  induction fuel with
  | zero => intro n ds h; omega
  | succ fuel ih =>
    intro n ds h
    unfold Nat.toDigitsCore
    simp only
    have hv := digitChar_value (n % 10) (Nat.mod_lt _ (by norm_num))
    split_ifs with h0
    · simp only [List.foldl_cons, hv, zero_mul, zero_add]
      have : n % 10 = n := by omega
      rw [this]
    · rw [ih (n / 10) _ (by omega)]
      simp only [List.foldl_cons, hv]
      have : n / 10 * 10 + n % 10 = n := by omega
      rw [this]

/-- Reading the decimal string of a number gives the number back. -/
theorem digitsValue_toString (n : Nat) : digitsValue (toString n).toList = n := by
  show digitsValue (Nat.toDigits 10 n) = n
  unfold digitsValue Nat.toDigits
  rw [foldl_toDigitsCore (n + 1) n [] (by omega)]
  rfl

theorem toString_nat_injective {a b : Nat} (h : toString a = toString b) : a = b := by
  have h2 : digitsValue (toString a).toList = digitsValue (toString b).toList := by rw [h]
  rw [digitsValue_toString, digitsValue_toString] at h2
  exact h2

theorem toString_nat_ne_empty (n : Nat) : toString n ≠ "" := by
  intro h
  have h2 := digitsValue_toString n
  rw [h] at h2
  have h3 : n = 0 := h2.symm
  subst h3
  revert h
  decide

theorem orElse_ne_empty (v : Option String) {dflt : String} (h : dflt ≠ "") :
    orElse v dflt ≠ "" := by
  unfold orElse
  cases v with
  | none => exact h
  | some s =>
    simp only
    split_ifs with h1
    · exact h
    · exact h1

theorem orElse_some_of_ne {s : String} (dflt : String) (h : s ≠ "") :
    orElse (some s) dflt = s := by
  simp [orElse, h]

theorem orElse_some_empty_default (s : String) : orElse (some s) "" = s := by
  unfold orElse
  simp only
  split_ifs with h
  · exact h.symm
  · rfl

theorem map_id_updateFirst (id : String) (newData : EventData) :
    ∀ l : List CalendarEvent,
      (updateFirst id newData l).map (fun e => e.id) = l.map (fun e => e.id)
  | [] => rfl
  | e :: es => by
    unfold updateFirst
    split_ifs
    · rfl
    · simp only [List.map_cons, map_id_updateFirst id newData es]

theorem storeIds_applyOp (ops : List StoreOp) (app : CalendarApp) (op : StoreOp) :
    List.Sublist (storeIds (applyOp app op) ++ addIds ops)
      (storeIds app ++ addIds (op :: ops)) := by
  cases op with
  | add now data =>
    simp only [applyOp, addEvent, saveToLocalStorage, storeIds, addIds, List.map_append,
      List.map_cons, List.map_nil, List.append_assoc, List.singleton_append]
    exact List.Sublist.refl _
  | edit id newData =>
    have h : storeIds (applyOp app (StoreOp.edit id newData)) = storeIds app := by
      simp only [applyOp, editEvent, storeIds]
      cases app.events.find? (fun e => decide (e.id = id)) with
      | none => rfl
      | some _ => exact map_id_updateFirst id newData app.events
    rw [h]
    exact List.Sublist.refl _
  | delete id =>
    simp only [applyOp, deleteEvent, saveToLocalStorage, storeIds, addIds]
    exact List.Sublist.append_right (List.Sublist.map _ (List.filter_sublist _)) _

/-- The identifiers in the store are, in order, among those the `addEvent` calls
gave out. -/
theorem storeIds_runOps : ∀ (ops : List StoreOp) (app : CalendarApp),
    List.Sublist (storeIds (runOps ops app)) (storeIds app ++ addIds ops)
  | [], app => by
    simp only [runOps, List.foldl_nil, addIds, List.append_nil]
    exact List.Sublist.refl _
  | op :: ops, app => by
    have ih := storeIds_runOps ops (applyOp app op)
    have hs := storeIds_applyOp ops app op
    exact ih.trans hs

theorem addIds_of_no_id : ∀ ops : List StoreOp,
    (∀ op ∈ ops, suppliesNoId op = true) →
      addIds ops = (addClocks ops).map (fun n => toString n)
  | [], _ => rfl
  | StoreOp.add now data :: ops, h => by
    have ih := addIds_of_no_id ops (fun op hop => h op (List.mem_cons_of_mem _ hop))
    have h1 := h (StoreOp.add now data) (List.mem_cons_self _ _)
    simp only [suppliesNoId, decide_eq_true_eq] at h1
    have h0 : orElse data.id (toString now) = toString now := by
      rcases h1 with e | e <;> rw [e] <;> rfl
    simp only [addIds, addClocks, List.map_cons, h0, ih]
  | StoreOp.edit id newData :: ops, h => by
    have ih := addIds_of_no_id ops (fun op hop => h op (List.mem_cons_of_mem _ hop))
    simp only [addIds, addClocks, ih]
  | StoreOp.delete id :: ops, h => by
    have ih := addIds_of_no_id ops (fun op hop => h op (List.mem_cons_of_mem _ hop))
    simp only [addIds, addClocks, ih]

/-- C9 (as stated, refuted): two `addEvent` calls without an id that read the same
clock value 1000 leave two events with the id "1000" in the store; the second
call gives an identifier that the store already has. -/
theorem same_clock_duplicates_id :
    storeIds (runOps sameClockOps (CalendarApp.empty (newDate 2024 1 1))) = ["1000", "1000"] ∧
      ¬(storeIds (runOps sameClockOps (CalendarApp.empty (newDate 2024 1 1)))).Nodup ∧
      freshAdds sameClockOps (CalendarApp.empty (newDate 2024 1 1)) = false := by
  decide

/-- Distinct clock values: in every store reached from the empty store by `addEvent`,
`editEvent` and `deleteEvent` calls in which no `addEvent` supplies an id and no
two `addEvent` calls read the same clock value, no two events have the same id. -/
theorem ids_unique_of_distinct_clocks (ops : List StoreOp) (today : JSDate)
    (hid : ∀ op ∈ ops, suppliesNoId op = true)
    (hclock : (addClocks ops).Nodup) :
    (storeIds (runOps ops (CalendarApp.empty today))).Nodup := by
  have hs := storeIds_runOps ops (CalendarApp.empty today)
  have h0 : storeIds (CalendarApp.empty today) = [] := rfl
  rw [h0, List.nil_append, addIds_of_no_id ops hid] at hs
  exact List.Nodup.sublist hs (List.Nodup.map (fun _ _ h => toString_nat_injective h) hclock)

/-- Distinct clock values, on calls of all three kinds at the values 1000, 1001 and
1002: the store ends with the ids "1000" and "1002". -/
theorem ids_unique_of_distinct_clocks_witness :
    (∀ op ∈ sampleOps, suppliesNoId op = true) ∧ (addClocks sampleOps).Nodup ∧
      storeIds (runOps sampleOps (CalendarApp.empty (newDate 2024 1 1))) = ["1000", "1002"] ∧
      (storeIds (runOps sampleOps (CalendarApp.empty (newDate 2024 1 1)))).Nodup :=
  ⟨by decide, by decide, by decide,
    ids_unique_of_distinct_clocks sampleOps (newDate 2024 1 1) (by decide) (by decide)⟩

/-- What the constructor makes of a stored event: the defaults apply to an empty
id, category or color, and every other field is kept. -/
theorem new_toData (now : Nat) (e : CalendarEvent) :
    CalendarEvent.new now e.toData =
      { withDefaults e with id := orElse (some e.id) (toString now) } := by
  simp only [CalendarEvent.new, CalendarEvent.toData, withDefaults, orElse_some_empty_default]

theorem new_toData_of_id (now : Nat) (e : CalendarEvent) (h : e.id ≠ "") :
    CalendarEvent.new now e.toData = withDefaults e := by
  rw [new_toData, orElse_some_of_ne _ h]
  rfl

theorem withDefaults_of_ne (e : CalendarEvent) (h1 : e.category ≠ "") (h2 : e.color ≠ "") :
    withDefaults e = e := by
  simp only [withDefaults, orElse_some_of_ne _ h1, orElse_some_of_ne _ h2]

theorem loadEvents_map_toData (clock : Nat → Nat) :
    ∀ (l : List CalendarEvent) (k : Nat), (∀ e ∈ l, e.id ≠ "") →
      loadEvents clock k (l.map CalendarEvent.toData) = l.map withDefaults
  | [], _, _ => rfl
  | e :: es, k, h => by
    have ih := loadEvents_map_toData clock es (k + 1)
      (fun e2 h2 => h e2 (List.mem_cons_of_mem _ h2))
    simp only [List.map_cons, loadEvents, ih, new_toData_of_id _ e (h e (List.mem_cons_self _ _))]

theorem map_withDefaults_of_ne : ∀ l : List CalendarEvent,
    (∀ e ∈ l, e.category ≠ "" ∧ e.color ≠ "") → l.map withDefaults = l
  | [], _ => rfl
  | e :: es, h => by
    have ih := map_withDefaults_of_ne es (fun e2 h2 => h e2 (List.mem_cons_of_mem _ h2))
    have h0 := h e (List.mem_cons_self _ _)
    simp only [List.map_cons, ih, withDefaults_of_ne e h0.1 h0.2]

theorem mem_updateFirst (id : String) (newData : EventData) :
    ∀ (l : List CalendarEvent) (x : CalendarEvent), x ∈ updateFirst id newData l →
      x ∈ l ∨ ∃ e ∈ l, x = e.update newData
  | [], x, h => by cases h
  | e :: es, x, h => by
    unfold updateFirst at h
    split_ifs at h with hid
    · rcases List.mem_cons.1 h with rfl | hm
      · exact Or.inr ⟨e, List.mem_cons_self _ _, rfl⟩
      · exact Or.inl (List.mem_cons_of_mem _ hm)
    · rcases List.mem_cons.1 h with rfl | hm
      · exact Or.inl (List.mem_cons_self _ _)
      · rcases mem_updateFirst id newData es x hm with h1 | ⟨e2, h2, h3⟩
        · exact Or.inl (List.mem_cons_of_mem _ h1)
        · exact Or.inr ⟨e2, List.mem_cons_of_mem _ h2, h3⟩

/-- The events of a store never have an empty id. -/
theorem applyOp_id_ne_empty (app : CalendarApp) (op : StoreOp)
    (h : ∀ e ∈ app.events, e.id ≠ "") : ∀ e ∈ (applyOp app op).events, e.id ≠ "" := by
  cases op with
  | add now data =>
    intro e he
    simp only [applyOp, addEvent, saveToLocalStorage, List.mem_append, List.mem_singleton] at he
    rcases he with he | rfl
    · exact h e he
    · exact orElse_ne_empty _ (toString_nat_ne_empty now)
  | edit id newData =>
    intro e he
    simp only [applyOp, editEvent] at he
    cases hf : app.events.find? (fun e => decide (e.id = id)) with
    | none =>
      rw [hf] at he
      exact h e he
    | some _ =>
      rw [hf] at he
      rcases mem_updateFirst id newData app.events e he with h1 | ⟨e2, h2, rfl⟩
      · exact h e h1
      · exact h e2 h2
  | delete id =>
    intro e he
    simp only [applyOp, deleteEvent, saveToLocalStorage] at he
    exact h e (List.mem_of_mem_filter he)

theorem applyOp_category_color (app : CalendarApp) (op : StoreOp)
    (hop : keepsCategoryAndColor op = true)
    (h : ∀ e ∈ app.events, e.category ≠ "" ∧ e.color ≠ "") :
    ∀ e ∈ (applyOp app op).events, e.category ≠ "" ∧ e.color ≠ "" := by
  cases op with
  | add now data =>
    intro e he
    simp only [applyOp, addEvent, saveToLocalStorage, List.mem_append, List.mem_singleton] at he
    rcases he with he | rfl
    · exact h e he
    · exact ⟨orElse_ne_empty _ (by decide), orElse_ne_empty _ (by decide)⟩
  | edit id newData =>
    intro e he
    simp only [keepsCategoryAndColor, decide_eq_true_eq] at hop
    simp only [applyOp, editEvent] at he
    cases hf : app.events.find? (fun e => decide (e.id = id)) with
    | none =>
      rw [hf] at he
      exact h e he
    | some _ =>
      rw [hf] at he
      rcases mem_updateFirst id newData app.events e he with h1 | ⟨e2, h2, rfl⟩
      · exact h e h1
      · have h3 := h e2 h2
        constructor
        · simp only [CalendarEvent.update]
          cases hc : newData.category with
          | none => exact h3.1
          | some v =>
            intro hv
            have hv2 : v = "" := hv
            exact hop.1 (by rw [hc, hv2])
        · simp only [CalendarEvent.update]
          cases hc : newData.color with
          | none => exact h3.2
          | some v =>
            intro hv
            have hv2 : v = "" := hv
            exact hop.2 (by rw [hc, hv2])
  | delete id =>
    intro e he
    simp only [applyOp, deleteEvent, saveToLocalStorage] at he
    exact h e (List.mem_of_mem_filter he)

theorem runOps_id_ne_empty : ∀ (ops : List StoreOp) (app : CalendarApp),
    (∀ e ∈ app.events, e.id ≠ "") → ∀ e ∈ (runOps ops app).events, e.id ≠ ""
  | [], _, h => h
  | op :: ops, app, h => runOps_id_ne_empty ops (applyOp app op) (applyOp_id_ne_empty app op h)

theorem runOps_category_color : ∀ (ops : List StoreOp) (app : CalendarApp),
    (∀ op ∈ ops, keepsCategoryAndColor op = true) →
    (∀ e ∈ app.events, e.category ≠ "" ∧ e.color ≠ "") →
      ∀ e ∈ (runOps ops app).events, e.category ≠ "" ∧ e.color ≠ ""
  | [], _, _, h => h
  | op :: ops, app, hk, h =>
    runOps_category_color ops (applyOp app op)
      (fun o ho => hk o (List.mem_cons_of_mem _ ho))
      (applyOp_category_color app op (hk op (List.mem_cons_self _ _)) h)

/-- C5 (as stated, refuted): after `addEvent` and an `editEvent` that sets the
category to the empty string, the store holds an event with category "", and
the event rebuilt from the stored value has the category "personal". -/
theorem empty_category_not_restored :
    (runOps emptyCategoryOps (CalendarApp.empty (newDate 2024 1 1))).events =
        [emptyCategoryEvent ""] ∧
      (loadFromLocalStorage (fun _ => 0)
        (saveToLocalStorage (runOps emptyCategoryOps (CalendarApp.empty (newDate 2024 1 1))))).events =
        [emptyCategoryEvent "personal"] ∧
      (loadFromLocalStorage (fun _ => 0)
        (saveToLocalStorage (runOps emptyCategoryOps (CalendarApp.empty (newDate 2024 1 1))))).events ≠
        (runOps emptyCategoryOps (CalendarApp.empty (newDate 2024 1 1))).events := by
  decide

/-- C5 (amended): for every store reached from the empty store through add, update
and remove, an application that loads the value `saveToLocalStorage` stored gets
the same number of events in the same order, each with the same id, title, date,
time and description as the original and with the same category and color,
except that an empty category comes back as "personal" and an empty color as
"#3b82f6"; when no update sets the category or the color to the empty string, the
events rebuilt are identical to the originals in every field. -/
theorem save_load_round_trip (ops : List StoreOp) (today : JSDate) (clock : Nat → Nat)
    (fresh : CalendarApp)
    (hs : fresh.storage = (saveToLocalStorage (runOps ops (CalendarApp.empty today))).storage) :
    (loadFromLocalStorage clock fresh).events =
        (runOps ops (CalendarApp.empty today)).events.map withDefaults ∧
      (loadFromLocalStorage clock fresh).events.length =
        (runOps ops (CalendarApp.empty today)).events.length ∧
      (∀ e : CalendarEvent, (withDefaults e).id = e.id ∧ (withDefaults e).title = e.title ∧
        (withDefaults e).date = e.date ∧ (withDefaults e).time = e.time ∧
        (withDefaults e).description = e.description ∧
        (withDefaults e).category = (if e.category = "" then "personal" else e.category) ∧
        (withDefaults e).color = (if e.color = "" then "#3b82f6" else e.color)) ∧
      ((∀ op ∈ ops, keepsCategoryAndColor op = true) →
        (loadFromLocalStorage clock fresh).events =
          (runOps ops (CalendarApp.empty today)).events) := by
  have hid := runOps_id_ne_empty ops (CalendarApp.empty today) (fun e he => by cases he)
  have hl : (loadFromLocalStorage clock fresh).events =
      (runOps ops (CalendarApp.empty today)).events.map withDefaults := by
    unfold loadFromLocalStorage
    rw [hs]
    simp only [saveToLocalStorage]
    exact loadEvents_map_toData clock _ 0 hid
  refine ⟨hl, by rw [hl, List.length_map], fun e => ⟨rfl, rfl, rfl, rfl, rfl, rfl, rfl⟩, ?_⟩
  intro hk
  rw [hl]
  exact map_withDefaults_of_ne _
    (runOps_category_color ops (CalendarApp.empty today) hk (fun e he => by cases he))

/-- C5 (amended), on calls of all three kinds: the two events that remain come back
unchanged in an application started afresh. -/
theorem save_load_round_trip_witness :
    (restartedFrom (runOps sampleOps (CalendarApp.empty (newDate 2024 1 1)))
        (newDate 2024 5 1)).storage =
      (saveToLocalStorage (runOps sampleOps (CalendarApp.empty (newDate 2024 1 1)))).storage ∧
    (runOps sampleOps (CalendarApp.empty (newDate 2024 1 1))).events.length = 2 ∧
    (∀ op ∈ sampleOps, keepsCategoryAndColor op = true) ∧
    (loadFromLocalStorage (fun _ => 0) (restartedFrom (runOps sampleOps (CalendarApp.empty (newDate 2024 1 1))) (newDate 2024 5 1))).events =
        (runOps sampleOps (CalendarApp.empty (newDate 2024 1 1))).events.map withDefaults ∧
      (loadFromLocalStorage (fun _ => 0) (restartedFrom (runOps sampleOps (CalendarApp.empty (newDate 2024 1 1))) (newDate 2024 5 1))).events.length =
        (runOps sampleOps (CalendarApp.empty (newDate 2024 1 1))).events.length ∧
      (∀ e : CalendarEvent, (withDefaults e).id = e.id ∧ (withDefaults e).title = e.title ∧
        (withDefaults e).date = e.date ∧ (withDefaults e).time = e.time ∧
        (withDefaults e).description = e.description ∧
        (withDefaults e).category = (if e.category = "" then "personal" else e.category) ∧
        (withDefaults e).color = (if e.color = "" then "#3b82f6" else e.color)) ∧
      ((∀ op ∈ sampleOps, keepsCategoryAndColor op = true) →
        (loadFromLocalStorage (fun _ => 0) (restartedFrom (runOps sampleOps (CalendarApp.empty (newDate 2024 1 1))) (newDate 2024 5 1))).events =
          (runOps sampleOps (CalendarApp.empty (newDate 2024 1 1))).events) :=
  ⟨rfl, by decide, by decide,
    save_load_round_trip sampleOps (newDate 2024 1 1) (fun _ => 0)
      (restartedFrom (runOps sampleOps (CalendarApp.empty (newDate 2024 1 1))) (newDate 2024 5 1))
      rfl⟩

/-! ## Results on `deleteEvent` -/

theorem filter_ne_id_of_absent (id : String) (l : List CalendarEvent)
    (h : ∀ e ∈ l, e.id ≠ id) : l.filter (fun e => decide (e.id ≠ id)) = l := by
  rw [List.filter_eq_self]
  intro e he
  exact decide_eq_true (h e he)

/-- What `deleteEvent(id)` does when no event has the identifier: the events and
the displayed date are as before, and the stored value becomes the serialisation
of the events, so the application is unchanged exactly when the stored value
already was that serialisation. -/
theorem deleteEvent_of_absent_id (app : CalendarApp) (id : String)
    (h : ∀ e ∈ app.events, e.id ≠ id) :
    (deleteEvent id app).events = app.events ∧
      (deleteEvent id app).currentDate = app.currentDate ∧
      (deleteEvent id app).storage = Stored.value (app.events.map CalendarEvent.toData) ∧
      (deleteEvent id app = app ↔
        app.storage = Stored.value (app.events.map CalendarEvent.toData)) := by
  have hf := filter_ne_id_of_absent id app.events h
  have he : deleteEvent id app =
      { app with storage := Stored.value (app.events.map CalendarEvent.toData) } := by
    simp only [deleteEvent, saveToLocalStorage, hf]
  refine ⟨by rw [he], by rw [he], by rw [he], ?_⟩
  rw [he]
  constructor
  · intro h2
    have h3 := congrArg CalendarApp.storage h2
    exact h3.symm
  · intro h2
    cases app with
    | mk events currentDate storage =>
      simp only at h2
      simp only [h2]

/-- After any call that saves, `deleteEvent(id)` for an identifier that no event
has changes nothing at all. -/
theorem deleteEvent_after_save (app : CalendarApp) (id : String)
    (h : ∀ e ∈ app.events, e.id ≠ id) :
    deleteEvent id (saveToLocalStorage app) = saveToLocalStorage app :=
  (deleteEvent_of_absent_id (saveToLocalStorage app) id h).2.2.2.2 rfl

theorem find?_of_absent_id (id : String) :
    ∀ l : List CalendarEvent, (∀ e ∈ l, e.id ≠ id) →
      l.find? (fun e => decide (e.id = id)) = none
  | [], _ => rfl
  | e :: es, h => by
    have h0 := h e (List.mem_cons_self _ _)
    have ih := find?_of_absent_id id es (fun e2 h2 => h e2 (List.mem_cons_of_mem _ h2))
    simp [List.find?, h0, ih]

/-- The sibling `editEvent(id, newData)` leaves the application as it is, stored
value included, when no event has the identifier. -/
theorem editEvent_of_absent_id (app : CalendarApp) (id : String) (newData : EventData)
    (h : ∀ e ∈ app.events, e.id ≠ id) : editEvent id newData app = app := by
  unfold editEvent
  rw [find?_of_absent_id id app.events h]

/-- C11 (failing input): in an application started with nothing stored, no event
has the identifier "x", and `deleteEvent("x")` keeps the events but writes the
stored value (an empty array where there was none), while `editEvent("x", ...)`
changes nothing; in an application that has loaded a stored object without
category and color, no event has the identifier "x", and `deleteEvent("x")`
keeps the one event but replaces the stored value. -/
theorem delete_unknown_id_writes_storage :
    (∀ e ∈ (CalendarApp.empty (newDate 2024 1 1)).events, e.id ≠ "x") ∧
      (CalendarApp.empty (newDate 2024 1 1)).storage = Stored.absent ∧
      (deleteEvent "x" (CalendarApp.empty (newDate 2024 1 1))).events =
        (CalendarApp.empty (newDate 2024 1 1)).events ∧
      (deleteEvent "x" (CalendarApp.empty (newDate 2024 1 1))).storage = Stored.value [] ∧
      deleteEvent "x" (CalendarApp.empty (newDate 2024 1 1)) ≠
        CalendarApp.empty (newDate 2024 1 1) ∧
      editEvent "x" sampleTitleOnly (CalendarApp.empty (newDate 2024 1 1)) =
        CalendarApp.empty (newDate 2024 1 1) ∧
      (∀ e ∈ loadedTitleOnlyApp.events, e.id ≠ "x") ∧
      loadedTitleOnlyApp.events.length = 1 ∧
      loadedTitleOnlyApp.storage = storedTitleOnly ∧
      (deleteEvent "x" loadedTitleOnlyApp).events = loadedTitleOnlyApp.events ∧
      (deleteEvent "x" loadedTitleOnlyApp).storage ≠ loadedTitleOnlyApp.storage := by
  decide

/-! ## Results on the grid in a time zone -/

theorem readsBack_newDateIn (z : TimeZone) (year month d : Int)
    (h : readsBack z (MakeDay (MakeFullYear year) month d)) :
    ∃ t, newDateIn z year month (some d) = some t ∧
      localDay z t = MakeDay (MakeFullYear year) month d := by
  unfold readsBack at h
  simp only [newDateIn]
  cases hc : TimeClip (UTC z (MakeDay (MakeFullYear year) month d * msPerDay)) with
  | none =>
    rw [hc] at h
    cases h
  | some t =>
    rw [hc] at h
    exact ⟨t, rfl, Option.some.inj h⟩

theorem readsBack_timeClip (z : TimeZone) (n : Int) (h : readsBack z n) :
    ∃ t, TimeClip (UTC z (n * msPerDay)) = some t ∧ localDay z t = n := by
  unfold readsBack at h
  cases hc : TimeClip (UTC z (n * msPerDay)) with
  | none =>
    rw [hc] at h
    cases h
  | some t =>
    rw [hc] at h
    exact ⟨t, rfl, Option.some.inj h⟩

/-- In a time zone at a constant offset every day whose local midnight is in the
range of the time values exists. -/
theorem readsBack_fixedZone (c n : Int)
    (h : -maxTimeValue ≤ n * msPerDay - c ∧ n * msPerDay - c ≤ maxTimeValue) :
    readsBack (fixedZone c) n := by
  unfold readsBack TimeClip UTC localDay LocalTime Day fixedZone
  simp only [if_pos h, Option.map_some', Option.some.injEq]
  unfold msPerDay
  omega

theorem startingDayIn_eq (z : TimeZone) (year month : Int)
    (h : readsBack z (MakeDay (MakeFullYear year) month 1)) :
    startingDayIn z year month = some (startingDay year month) := by
  obtain ⟨t, h1, h2⟩ := readsBack_newDateIn z year month 1 h
  unfold startingDayIn startingDay
  simp only [h1, getDayIn, Option.map_some', h2, JSDate.getDay, newDate]
  split_ifs <;> rfl

theorem daysInMonthIn_eq (z : TimeZone) (year month : Int)
    (h : readsBack z (MakeDay (MakeFullYear year) (month + 1) 0)) :
    daysInMonthIn z year month = some (daysInMonth year month) := by
  obtain ⟨t, h1, h2⟩ := readsBack_newDateIn z year (month + 1) 0 h
  unfold daysInMonthIn daysInMonth
  simp only [h1, getDateIn, Option.map_some', h2, JSDate.getDate, newDate]

theorem daysInPrevMonthIn_eq (z : TimeZone) (year month : Int)
    (h : readsBack z (MakeDay (MakeFullYear year) month 0)) :
    daysInPrevMonthIn z year month = some (daysInPrevMonth year month) := by
  obtain ⟨t, h1, h2⟩ := readsBack_newDateIn z year month 0 h
  unfold daysInPrevMonthIn daysInPrevMonth
  simp only [h1, getDateIn, Option.map_some', h2, JSDate.getDate, newDate]

/-- When the three quantities agree with those of the local time line, the loop
builds each cell at the local midnight of the day `cellDate` names and gives it
the same flag. -/
theorem cellDateIn_eq (z : TimeZone) (year month i : Int)
    (hs : startingDayIn z year month = some (startingDay year month))
    (hd : daysInMonthIn z year month = some (daysInMonth year month))
    (hp : i < startingDay year month →
      daysInPrevMonthIn z year month = some (daysInPrevMonth year month)) :
    cellDateIn z year month i = TimeClip (UTC z ((cellDate year month i).day * msPerDay)) ∧
      isCurrentMonthIn z year month i = isCurrentMonth year month i := by
  unfold cellDateIn cellDate isCurrentMonthIn isCurrentMonth
  rw [hs, hd]
  by_cases h1 : i < startingDay year month
  · rw [hp h1]
    simp only [numLt, numAdd, numSub, h1, decide_True, if_true, newDateIn, newDate, and_self]
  · by_cases h2 : i ≥ startingDay year month + daysInMonth year month
    · simp only [numLt, numGe, numAdd, numSub, h1, h2, decide_True, decide_False, if_true,
        if_false, newDateIn, newDate, and_self, Bool.false_eq_true]
    · simp only [numLt, numGe, numAdd, numSub, h1, h2, decide_True, decide_False, if_true,
        if_false, newDateIn, newDate, and_self, Bool.false_eq_true]

theorem totalCellsIn_eq (z : TimeZone) (year month : Int)
    (hs : startingDayIn z year month = some (startingDay year month))
    (hd : daysInMonthIn z year month = some (daysInMonth year month)) :
    totalCellsIn z year month = some (totalCells year month) := by
  unfold totalCellsIn totalCells
  rw [hs, hd]
  rfl

theorem cellsIn_getElem? (z : TimeZone) (year month : Int) (n : Int)
    (hT : totalCellsIn z year month = some n) (i : Nat) (h : (i : Int) < n) :
    (cellsIn z year month)[i]? =
      some (cellDateIn z year month i, isCurrentMonthIn z year month i) := by
  have hi : i < n.toNat := by omega
  unfold cellsIn
  rw [hT]
  simp only
  rw [List.getElem?_map, List.getElem?_range hi]
  rfl

theorem cellsIn_length (z : TimeZone) (year month : Int) (n : Int)
    (hT : totalCellsIn z year month = some n) : (cellsIn z year month).length = n.toNat := by
  unfold cellsIn
  rw [hT]
  simp only
  rw [List.length_map, List.length_range]

/-- The days `renderCalendar` reads its three quantities from, as day numbers
relative to the first of the month: the last day of the month and the day before
the first. -/
theorem grid_days (year month : Int) (hm : 0 ≤ month ∧ month ≤ 11) :
    MakeDay (MakeFullYear year) (month + 1) 0 =
        MakeDay (MakeFullYear year) month 1 + (daysInMonth year month - 1) ∧
      MakeDay (MakeFullYear year) month 0 = MakeDay (MakeFullYear year) month 1 - 1 ∧
      MakeDay (MakeFullYear year) month (monthLength (MakeFullYear year) month) =
        MakeDay (MakeFullYear year) (month + 1) 0 := by
  have a1 := MakeDay_shift (MakeFullYear year) (month + 1) 0 1
  have a2 := MakeDay_next_first (y := MakeFullYear year) hm
  have a3 := MakeDay_shift (MakeFullYear year) month 0 1
  have a4 := MakeDay_shift (MakeFullYear year) month (monthLength (MakeFullYear year) month) 1
  have hd := daysInMonth_eq year month hm
  omega

theorem readsBack_congr {z : TimeZone} {n m : Int} (h : n = m) (hn : readsBack z n) :
    readsBack z m := by
  subst h
  exact hn

/-- In a time zone at a constant offset of at most one day, every day of every
grid of the years -271820 to 275759 exists. -/
theorem readsBack_fixedZone_grid (c year month j : Int)
    (hc : -msPerDay ≤ c ∧ c ≤ msPerDay) (hm : 0 ≤ month ∧ month ≤ 11)
    (hy : -271820 ≤ MakeFullYear year ∧ MakeFullYear year ≤ 275759)
    (h0 : 0 ≤ j) (h1 : j < totalCells year month) :
    readsBack (fixedZone c) (cellDate year month j).day := by
  apply readsBack_fixedZone
  rw [cellDate_day year month hm j]
  have hs := startingDay_range year month
  have hT := totalCells_bounds year month
  have hd := daysInMonth_eq year month hm
  have hl := monthLength_pos (MakeFullYear year) month
  have e : (newDate year month 1).day =
      DayFromYear (MakeFullYear year) + monthStart month (leapDays (MakeFullYear year)) := by
    simp only [newDate]
    rw [MakeDay_of_month hm]
    omega
  have ht := monthTable (MakeFullYear year) hm
  have hlc := leapDays_cases (MakeFullYear year)
  rw [e]
  generalize MakeFullYear year = y at *
  unfold DayFromYear maxTimeValue
  unfold msPerDay at hc ⊢
  omega

/-- C2 (as stated, refuted): in the time zone of Apia, whose calendar has no
30 December 2011, the grid of December 2011 has 35 cells; cell 32 is built as
`new Date(2011, 11, 30)` and cell 33 as `new Date(2011, 11, 31)`, and both show
31 December 2011, so cell 33 is not dated one day after cell 32. -/
theorem apia_december_2011_repeats_a_date :
    (cellsIn apiaZone 2011 11).length = 35 ∧
      ¬readsBack apiaZone (MakeDay 2011 11 30) ∧
      ((cellsIn apiaZone 2011 11)[32]?).map (fun c => c.1.map (civilAt apiaZone)) =
        some (some (2011, 11, 31)) ∧
      ((cellsIn apiaZone 2011 11)[33]?).map (fun c => c.1.map (civilAt apiaZone)) =
        some (some (2011, 11, 31)) ∧
      nextDay (2011, 11, 31) ≠ (2011, 11, 31) := by
  decide

/-- C2 (amended): for every year and month index 0..11 and every time zone in
which each calendar day of the grid exists (the `Date` built at its local
midnight is valid and shows that day), the cells `renderCalendar` generates are
date-contiguous: for every index `i` with `i + 1` below `totalCells`, the cells
`i` and `i + 1` exist, carry valid dates, and the calendar date (year, month, day
of the month) of cell `i + 1` is the day after that of cell `i`, also across the
boundaries of the months and of the year. -/
theorem cells_date_contiguous_in_zone (z : TimeZone) (year month : Int) (i : Nat)
    (hm : 0 ≤ month ∧ month ≤ 11)
    (hz : ∀ j : Int, 0 ≤ j → j < totalCells year month →
      readsBack z (cellDate year month j).day)
    (h1 : (i : Int) + 1 < totalCells year month) :
    ∃ (t t2 : Int) (f f2 : Bool),
      (cellsIn z year month)[i]? = some (some t, f) ∧
      (cellsIn z year month)[i + 1]? = some (some t2, f2) ∧
      localDay z t2 = localDay z t + 1 ∧
      civilAt z t2 = nextDay (civilAt z t) := by
  have hs := startingDay_range year month
  have hT := totalCells_bounds year month
  have hd := daysInMonth_eq year month hm
  have hl := monthLength_pos (MakeFullYear year) month
  have hg := grid_days year month hm
  have hday : ∀ j : Int, (cellDate year month j).day =
      MakeDay (MakeFullYear year) month 1 + (j - startingDay year month) :=
    fun j => cellDate_day year month hm j
  have hf : readsBack z (MakeDay (MakeFullYear year) month 1) :=
    readsBack_congr (by rw [hday]; omega)
      (hz (startingDay year month) (by omega) (by omega))
  have hlast : readsBack z (MakeDay (MakeFullYear year) (month + 1) 0) :=
    readsBack_congr (by rw [hday]; omega)
      (hz (startingDay year month + daysInMonth year month - 1) (by omega) (by omega))
  have hs2 := startingDayIn_eq z year month hf
  have hd2 := daysInMonthIn_eq z year month hlast
  have hp2 : ∀ j : Int, 0 ≤ j → j < startingDay year month →
      daysInPrevMonthIn z year month = some (daysInPrevMonth year month) := by
    intro j hj0 hj
    exact daysInPrevMonthIn_eq z year month
      (readsBack_congr (by rw [hday]; omega)
        (hz (startingDay year month - 1) (by omega) (by omega)))
  have hT2 := totalCellsIn_eq z year month hs2 hd2
  have cell : ∀ k : Nat, (k : Int) < totalCells year month →
      ∃ t, (cellsIn z year month)[k]? = some (some t, isCurrentMonth year month k) ∧
        localDay z t = (cellDate year month k).day := by
    intro k hk
    obtain ⟨c1, c2⟩ := cellDateIn_eq z year month k hs2 hd2 (hp2 k (by omega))
    obtain ⟨t, r1, r2⟩ := readsBack_timeClip z _ (hz k (by omega) hk)
    refine ⟨t, ?_, r2⟩
    rw [cellsIn_getElem? z year month _ hT2 k hk, c1, c2, r1]
  obtain ⟨t, a1, a2⟩ := cell i (by omega)
  obtain ⟨t2, b1, b2⟩ := cell (i + 1) (by push_cast; omega)
  have hstep : localDay z t2 = localDay z t + 1 := by
    rw [a2, b2, hday, hday]
    push_cast
    omega
  refine ⟨t, t2, _, _, a1, b1, hstep, ?_⟩
  have c := civil_succ (localDay z t) 0
  simp only [JSDate.civil, JSDate.getFullYear, JSDate.getMonth, JSDate.getDate] at c
  simp only [civilAt, hstep]
  exact c

/-- C2 (amended), two hours ahead of UTC at the turn of the year: in the grid of
December 2024 cell 36 shows 31 December 2024 and cell 37 shows 1 January 2025. -/
theorem cells_date_contiguous_in_zone_witness :
    ((0 : Int) ≤ 11 ∧ (11 : Int) ≤ 11) ∧
    (∀ j : Int, 0 ≤ j → j < totalCells 2024 11 →
      readsBack (fixedZone 7200000) (cellDate 2024 11 j).day) ∧
    ((36 : Nat) : Int) + 1 < totalCells 2024 11 ∧
    ((cellsIn (fixedZone 7200000) 2024 11)[36]?).map
      (fun c => c.1.map (civilAt (fixedZone 7200000))) = some (some (2024, 11, 31)) ∧
    ((cellsIn (fixedZone 7200000) 2024 11)[37]?).map
      (fun c => c.1.map (civilAt (fixedZone 7200000))) = some (some (2025, 0, 1)) ∧
    ∃ (t t2 : Int) (f f2 : Bool),
      (cellsIn (fixedZone 7200000) (2024 : Int) (11 : Int))[36]? = some (some t, f) ∧
      (cellsIn (fixedZone 7200000) (2024 : Int) (11 : Int))[36 + 1]? = some (some t2, f2) ∧
      localDay (fixedZone 7200000) t2 = localDay (fixedZone 7200000) t + 1 ∧
      civilAt (fixedZone 7200000) t2 = nextDay (civilAt (fixedZone 7200000) t) :=
  ⟨by decide,
    fun j h0 h1 => readsBack_fixedZone_grid 7200000 2024 11 j (by decide) (by decide)
      (by decide) h0 h1,
    by decide, by decide, by decide,
    cells_date_contiguous_in_zone (fixedZone 7200000) 2024 11 36 (by decide)
      (fun j h0 h1 => readsBack_fixedZone_grid 7200000 2024 11 j (by decide) (by decide)
        (by decide) h0 h1)
      (by decide)⟩

theorem isCurrentMonthIn_eq (z : TimeZone) (year month i : Int)
    (hs : startingDayIn z year month = some (startingDay year month))
    (hd : daysInMonthIn z year month = some (daysInMonth year month)) :
    isCurrentMonthIn z year month i = isCurrentMonth year month i := by
  unfold isCurrentMonthIn isCurrentMonth
  rw [hs, hd]
  by_cases h1 : i < startingDay year month
  · simp only [numLt, h1, decide_True, if_true]
  · by_cases h2 : i ≥ startingDay year month + daysInMonth year month
    · simp only [numLt, numGe, numAdd, h1, h2, decide_True, decide_False, if_true, if_false,
        Bool.false_eq_true]
    · simp only [numLt, numGe, numAdd, h1, h2, decide_True, decide_False, if_true, if_false,
        Bool.false_eq_true]

/-- For a year the `Date` constructor takes as it is, the quantities of the grid
are those of the calendar. -/
theorem grid_quantities_full_year (year month : Int) (hm : 0 ≤ month ∧ month ≤ 11)
    (hy : year < 0 ∨ 99 < year) :
    startingDay year month = firstWeekday year month ∧
      daysInMonth year month = monthLength year month ∧
      totalCells year month = weeksCells year month := by
  have hY := MakeFullYear_of_not_two_digit hy
  have h1 : startingDay year month = firstWeekday year month := by
    rw [startingDay_eq]
    simp only [newDate, hY, firstWeekday]
  have h2 : daysInMonth year month = monthLength year month := by
    rw [daysInMonth_eq year month hm, hY]
  refine ⟨h1, h2, ?_⟩
  unfold totalCells weeksCells
  rw [h1, h2]

/-- Past the range of the `Date`: the 1st of September 275760 is a valid `Date`
and the 30th is not, so in UTC `daysInMonth` and `totalCells` are `NaN` and the
loop of `renderCalendar` generates no cell for that month. -/
theorem september_275760_renders_no_cells :
    readsBack (fixedZone 0) (MakeDay 275760 8 1) ∧
      ¬readsBack (fixedZone 0) (MakeDay 275760 8 30) ∧
      daysInMonthIn (fixedZone 0) 275760 8 = none ∧
      totalCellsIn (fixedZone 0) 275760 8 = none ∧
      cellsIn (fixedZone 0) 275760 8 = [] := by
  decide

/-- C10 (amended): for every year outside 0..99, every month index 0..11 and every
time zone in which the first and the last day of the month exist, write `s` for
the Monday-based weekday index of the 1st and `d` for the number of days of the
month.  The grid has `weeksCells` cells, and cell `i` is flagged in-current-month
exactly when `s ≤ i < s + d`.  The flag goes from false (cell `i - 1`) to true
(cell `i`) only at `i = s`: at exactly one index when the month does not start on
a Monday, at none when it does.  The flag goes from true (cell `j`) to false
(cell `j + 1`) only at `j = s + d - 1`: at exactly one index when the month does
not end on a Sunday, at none when it does.  Cell `s` is dated the first day of
the target month and cell `s + d - 1` its last day. -/
theorem month_flag_transitions_in_zone (z : TimeZone) (year month : Int)
    (hm : 0 ≤ month ∧ month ≤ 11) (hy : year < 0 ∨ 99 < year)
    (hf : readsBack z (MakeDay year month 1))
    (hl : readsBack z (MakeDay year month (monthLength year month))) :
    totalCellsIn z year month = some (weeksCells year month) ∧
    ((cellsIn z year month).length : Int) = weeksCells year month ∧
    (∀ i : Nat, (i : Int) < weeksCells year month →
      (cellsIn z year month)[i]? =
        some (cellDateIn z year month i, isCurrentMonthIn z year month i)) ∧
    (∀ i : Int, isCurrentMonthIn z year month i = true ↔
      firstWeekday year month ≤ i ∧ i < firstWeekday year month + monthLength year month) ∧
    (∀ i : Int, 1 ≤ i → i < weeksCells year month →
      ((isCurrentMonthIn z year month (i - 1) = false ∧
          isCurrentMonthIn z year month i = true) ↔
        i = firstWeekday year month)) ∧
    (∀ j : Int, 0 ≤ j → j + 1 < weeksCells year month →
      ((isCurrentMonthIn z year month j = true ∧
          isCurrentMonthIn z year month (j + 1) = false) ↔
        j = firstWeekday year month + monthLength year month - 1)) ∧
    ((∃ i : Int, 1 ≤ i ∧ i < weeksCells year month ∧
        isCurrentMonthIn z year month (i - 1) = false ∧
        isCurrentMonthIn z year month i = true) ↔
      firstWeekday year month ≠ 0) ∧
    ((∃ j : Int, 0 ≤ j ∧ j + 1 < weeksCells year month ∧
        isCurrentMonthIn z year month j = true ∧
        isCurrentMonthIn z year month (j + 1) = false) ↔
      lastWeekday year month ≠ 6) ∧
    (0 ≤ firstWeekday year month ∧
      firstWeekday year month + monthLength year month ≤ weeksCells year month) ∧
    (∃ t : Int, cellDateIn z year month (firstWeekday year month) = some t ∧
      civilAt z t = (year, month, 1)) ∧
    (∃ t : Int,
      cellDateIn z year month (firstWeekday year month + monthLength year month - 1) =
        some t ∧
      civilAt z t = (year, month, monthLength year month)) := by
  have hY := MakeFullYear_of_not_two_digit hy
  obtain ⟨q1, q2, q3⟩ := grid_quantities_full_year year month hm hy
  have hs := startingDay_range year month
  have hT := totalCells_bounds year month
  have hml := monthLength_pos year month
  have hg := grid_days year month hm
  rw [hY] at hg
  rw [q1, q2] at hT
  rw [q1] at hs
  rw [q3] at hT
  have hf2 : readsBack z (MakeDay (MakeFullYear year) month 1) := by
    rw [hY]
    exact hf
  have hl2 : readsBack z (MakeDay (MakeFullYear year) (month + 1) 0) := by
    rw [hY]
    exact readsBack_congr hg.2.2 hl
  have hs2 := startingDayIn_eq z year month hf2
  have hd2 := daysInMonthIn_eq z year month hl2
  have hT2 := totalCellsIn_eq z year month hs2 hd2
  rw [q3] at hT2
  have hflag : ∀ i : Int, isCurrentMonthIn z year month i = true ↔
      firstWeekday year month ≤ i ∧ i < firstWeekday year month + monthLength year month := by
    intro i
    rw [isCurrentMonthIn_eq z year month i hs2 hd2, isCurrentMonth_iff, q1, q2]
  have hflagF : ∀ i : Int, isCurrentMonthIn z year month i = false ↔
      (i < firstWeekday year month ∨
        firstWeekday year month + monthLength year month ≤ i) := by
    intro i
    rw [isCurrentMonthIn_eq z year month i hs2 hd2, isCurrentMonth_false_iff, q1, q2]
  have hday : ∀ j : Int, (cellDate year month j).day =
      MakeDay year month 1 + (j - firstWeekday year month) := by
    intro j
    rw [cellDate_day year month hm j, ← q1]
    simp only [newDate, hY]
  have hlastw : lastWeekday year month =
      (firstWeekday year month + monthLength year month - 1) % 7 := by
    have e := MakeDay_shift year month (monthLength year month) 1
    unfold lastWeekday firstWeekday mondayIndex WeekDay
    rw [e]
    omega
  have hT3 : weeksCells year month =
      ceilDiv7 (firstWeekday year month + monthLength year month) * 7 := rfl
  unfold ceilDiv7 at hT3
  refine ⟨hT2, ?_, ?_, hflag, ?_, ?_, ?_, ?_, ⟨hs.1, hT.1⟩, ?_, ?_⟩
  · rw [cellsIn_length z year month _ hT2]
    omega
  · intro i hi
    exact cellsIn_getElem? z year month _ hT2 i hi
  · intro i h1 h2
    rw [hflagF, hflag]
    omega
  · intro j h1 h2
    rw [hflagF, hflag]
    omega
  · constructor
    · rintro ⟨i, h1, h2, h3, h4⟩
      rw [hflagF] at h3
      rw [hflag] at h4
      omega
    · intro h
      refine ⟨firstWeekday year month, by omega, by omega, ?_, ?_⟩
      · rw [hflagF]; omega
      · rw [hflag]; omega
  · constructor
    · rintro ⟨j, h1, h2, h3, h4⟩
      rw [hflagF] at h4
      rw [hflag] at h3
      omega
    · intro h
      refine ⟨firstWeekday year month + monthLength year month - 1, by omega, by omega,
        ?_, ?_⟩
      · rw [hflag]; omega
      · rw [hflagF]; omega
  · obtain ⟨c1, _⟩ := cellDateIn_eq z year month (firstWeekday year month) hs2 hd2
      (fun h => by rw [q1] at h; omega)
    have e : (cellDate year month (firstWeekday year month)).day = MakeDay year month 1 := by
      rw [hday]
      omega
    rw [e] at c1
    obtain ⟨t, r1, r2⟩ := readsBack_timeClip z _ hf
    obtain ⟨f1, f2, f3⟩ := fields_MakeDay (y := year) (m := month) (d := 1) hm
      ⟨by omega, by omega⟩
    refine ⟨t, by rw [c1, r1], ?_⟩
    simp only [civilAt, r2, f1, f2, f3]
  · obtain ⟨c1, _⟩ := cellDateIn_eq z year month
      (firstWeekday year month + monthLength year month - 1) hs2 hd2
      (fun h => by rw [q1] at h; omega)
    have e : (cellDate year month (firstWeekday year month + monthLength year month - 1)).day
        = MakeDay year month (monthLength year month) := by
      have e2 := MakeDay_shift year month (monthLength year month) 1
      rw [hday]
      omega
    rw [e] at c1
    obtain ⟨t, r1, r2⟩ := readsBack_timeClip z _ hl
    obtain ⟨f1, f2, f3⟩ := fields_MakeDay (y := year) (m := month)
      (d := monthLength year month) hm ⟨by omega, by omega⟩
    refine ⟨t, by rw [c1, r1], ?_⟩
    simp only [civilAt, r2, f1, f2, f3]

/-- C10 (amended), two hours ahead of UTC at February 2024: the month starts on a
Thursday (`s = 3`), has 29 days and ends on a Thursday, and the grid has 35
cells. -/
theorem month_flag_transitions_in_zone_witness :
    ((0 : Int) ≤ 1 ∧ (1 : Int) ≤ 11) ∧ ((2024 : Int) < 0 ∨ (99 : Int) < 2024) ∧
    readsBack (fixedZone 7200000) (MakeDay 2024 1 1) ∧
    readsBack (fixedZone 7200000) (MakeDay 2024 1 (monthLength 2024 1)) ∧
    firstWeekday 2024 1 = 3 ∧ monthLength 2024 1 = 29 ∧ lastWeekday 2024 1 = 3 ∧
    weeksCells 2024 1 = 35 ∧
    totalCellsIn (fixedZone 7200000) (2024 : Int) (1 : Int) = some (weeksCells (2024 : Int) (1 : Int)) ∧
    ((cellsIn (fixedZone 7200000) (2024 : Int) (1 : Int)).length : Int) = weeksCells (2024 : Int) (1 : Int) ∧
    (∀ i : Nat, (i : Int) < weeksCells (2024 : Int) (1 : Int) →
      (cellsIn (fixedZone 7200000) (2024 : Int) (1 : Int))[i]? =
        some (cellDateIn (fixedZone 7200000) (2024 : Int) (1 : Int) i, isCurrentMonthIn (fixedZone 7200000) (2024 : Int) (1 : Int) i)) ∧
    (∀ i : Int, isCurrentMonthIn (fixedZone 7200000) (2024 : Int) (1 : Int) i = true ↔
      firstWeekday (2024 : Int) (1 : Int) ≤ i ∧ i < firstWeekday (2024 : Int) (1 : Int) + monthLength (2024 : Int) (1 : Int)) ∧
    (∀ i : Int, 1 ≤ i → i < weeksCells (2024 : Int) (1 : Int) →
      ((isCurrentMonthIn (fixedZone 7200000) (2024 : Int) (1 : Int) (i - 1) = false ∧
          isCurrentMonthIn (fixedZone 7200000) (2024 : Int) (1 : Int) i = true) ↔
        i = firstWeekday (2024 : Int) (1 : Int))) ∧
    (∀ j : Int, 0 ≤ j → j + 1 < weeksCells (2024 : Int) (1 : Int) →
      ((isCurrentMonthIn (fixedZone 7200000) (2024 : Int) (1 : Int) j = true ∧
          isCurrentMonthIn (fixedZone 7200000) (2024 : Int) (1 : Int) (j + 1) = false) ↔
        j = firstWeekday (2024 : Int) (1 : Int) + monthLength (2024 : Int) (1 : Int) - 1)) ∧
    ((∃ i : Int, 1 ≤ i ∧ i < weeksCells (2024 : Int) (1 : Int) ∧
        isCurrentMonthIn (fixedZone 7200000) (2024 : Int) (1 : Int) (i - 1) = false ∧
        isCurrentMonthIn (fixedZone 7200000) (2024 : Int) (1 : Int) i = true) ↔
      firstWeekday (2024 : Int) (1 : Int) ≠ 0) ∧
    ((∃ j : Int, 0 ≤ j ∧ j + 1 < weeksCells (2024 : Int) (1 : Int) ∧
        isCurrentMonthIn (fixedZone 7200000) (2024 : Int) (1 : Int) j = true ∧
        isCurrentMonthIn (fixedZone 7200000) (2024 : Int) (1 : Int) (j + 1) = false) ↔
      lastWeekday (2024 : Int) (1 : Int) ≠ 6) ∧
    (0 ≤ firstWeekday (2024 : Int) (1 : Int) ∧
      firstWeekday (2024 : Int) (1 : Int) + monthLength (2024 : Int) (1 : Int) ≤ weeksCells (2024 : Int) (1 : Int)) ∧
    (∃ t : Int, cellDateIn (fixedZone 7200000) (2024 : Int) (1 : Int) (firstWeekday (2024 : Int) (1 : Int)) = some t ∧
      civilAt (fixedZone 7200000) t = ((2024 : Int), (1 : Int), 1)) ∧
    (∃ t : Int,
      cellDateIn (fixedZone 7200000) (2024 : Int) (1 : Int) (firstWeekday (2024 : Int) (1 : Int) + monthLength (2024 : Int) (1 : Int) - 1) =
        some t ∧
      civilAt (fixedZone 7200000) t = ((2024 : Int), (1 : Int), monthLength (2024 : Int) (1 : Int))) :=
  ⟨by decide, by decide, by decide, by decide, by decide, by decide, by decide, by decide,
    month_flag_transitions_in_zone (fixedZone 7200000) 2024 1 (by decide) (by decide)
      (by decide) (by decide)⟩

/-! ## Results on identifiers: fresh identifiers -/

theorem storeIds_addEvent (now : Nat) (data : EventData) (app : CalendarApp) :
    storeIds (addEvent now data app) = storeIds app ++ [orElse data.id (toString now)] := by
  simp only [addEvent, saveToLocalStorage, storeIds, List.map_append, List.map_cons,
    List.map_nil, CalendarEvent.new]

theorem storeIds_editEvent (id : String) (newData : EventData) (app : CalendarApp) :
    storeIds (editEvent id newData app) = storeIds app := by
  simp only [editEvent, storeIds]
  cases app.events.find? (fun e => decide (e.id = id)) with
  | none => rfl
  | some _ => exact map_id_updateFirst id newData app.events

theorem storeIds_deleteEvent (id : String) (app : CalendarApp) :
    List.Sublist (storeIds (deleteEvent id app)) (storeIds app) := by
  simp only [deleteEvent, saveToLocalStorage, storeIds]
  exact List.Sublist.map _ (List.filter_sublist _)

/-- `addEvent` keeps the identifiers distinct exactly when the identifier it gives
is not in the store; `editEvent` and `deleteEvent` always keep them distinct. -/
theorem nodup_applyOp (app : CalendarApp) (h : (storeIds app).Nodup) :
    (∀ (now : Nat) (data : EventData),
      ((storeIds (applyOp app (StoreOp.add now data))).Nodup ↔
        orElse data.id (toString now) ∉ storeIds app)) ∧
    (∀ (id : String) (newData : EventData),
      (storeIds (applyOp app (StoreOp.edit id newData))).Nodup) ∧
    (∀ id : String, (storeIds (applyOp app (StoreOp.delete id))).Nodup) := by
  refine ⟨fun now data => ?_, fun id newData => ?_, fun id => ?_⟩
  · simp only [applyOp, storeIds_addEvent]
    rw [List.nodup_append]
    constructor
    · rintro ⟨_, _, hd⟩ hmem
      exact hd hmem (List.mem_singleton_self _)
    · intro hn
      refine ⟨h, List.nodup_singleton _, ?_⟩
      intro a ha hb
      rw [List.mem_singleton] at hb
      subst hb
      exact hn ha
  · simp only [applyOp, storeIds_editEvent]
    exact h
  · simp only [applyOp]
    exact List.Nodup.sublist (storeIds_deleteEvent id app) h

theorem runOps_cons (op : StoreOp) (ops : List StoreOp) (app : CalendarApp) :
    runOps (op :: ops) app = runOps ops (applyOp app op) := rfl

/-- Every store reached along a sequence of calls has distinct identifiers
exactly when every `addEvent` call gives an identifier that is not in the store
at that moment. -/
theorem nodup_prefixes_iff_freshAdds : ∀ (ops : List StoreOp) (app : CalendarApp),
    (storeIds app).Nodup →
      ((∀ k : Nat, (storeIds (runOps (ops.take k) app)).Nodup) ↔ freshAdds ops app = true)
  | [], app, h => by
    simp only [List.take_nil, runOps, List.foldl_nil, freshAdds, iff_true]
    exact fun _ => h
  | op :: ops, app, h => by
    have step := nodup_applyOp app h
    have key : ∀ (hop : (storeIds (applyOp app op)).Nodup),
        ((∀ k : Nat, (storeIds (runOps ((op :: ops).take k) app)).Nodup) ↔
          freshAdds ops (applyOp app op) = true) := by
      intro hop
      rw [← nodup_prefixes_iff_freshAdds ops (applyOp app op) hop]
      constructor
      · intro hk k
        have := hk (k + 1)
        rwa [List.take_succ_cons, runOps_cons] at this
      · intro hk k
        cases k with
        | zero => exact h
        | succ k =>
          rw [List.take_succ_cons, runOps_cons]
          exact hk k
    cases op with
    | add now data =>
      simp only [freshAdds, Bool.and_eq_true, decide_eq_true_eq]
      constructor
      · intro hk
        have h1 := hk 1
        simp only [List.take_succ_cons, List.take_zero, runOps, List.foldl_cons,
          List.foldl_nil] at h1
        exact ⟨(step.1 now data).1 h1, (key h1).1 hk⟩
      · rintro ⟨hf, hr⟩
        exact (key ((step.1 now data).2 hf)).2 hr
    | edit id newData =>
      simp only [freshAdds]
      exact key (step.2.1 id newData)
    | delete id =>
      simp only [freshAdds]
      exact key (step.2.2 id)

theorem freshAdds_of_addIds_nodup : ∀ (ops : List StoreOp) (app : CalendarApp),
    (storeIds app ++ addIds ops).Nodup → freshAdds ops app = true
  | [], _, _ => rfl
  | StoreOp.add now data :: ops, app, h => by
    simp only [freshAdds, Bool.and_eq_true, decide_eq_true_eq]
    simp only [addIds] at h
    constructor
    · intro hmem
      have := (List.nodup_append.1 h).2.2
      exact this hmem (List.mem_cons_self _ _)
    · apply freshAdds_of_addIds_nodup ops
      simp only [applyOp, storeIds_addEvent, List.append_assoc, List.singleton_append]
      exact h
  | StoreOp.edit id newData :: ops, app, h => by
    simp only [freshAdds]
    apply freshAdds_of_addIds_nodup ops
    simp only [applyOp, storeIds_editEvent]
    exact h
  | StoreOp.delete id :: ops, app, h => by
    simp only [freshAdds]
    apply freshAdds_of_addIds_nodup ops
    simp only [applyOp]
    exact List.Nodup.sublist
      (List.Sublist.append_right (storeIds_deleteEvent id app) _) h

/-- C9 (amended): the stores reached along a sequence of `addEvent`, `editEvent`
and `deleteEvent` calls from the empty store all have pairwise distinct ids
exactly when every `addEvent` call of the sequence gives its event an identifier
(the supplied id, or the clock value as a string when none is supplied) that no
event of the store has at the moment of the call; the store the sequence ends in
then has pairwise distinct ids.  Every `addEvent` call does so when the
identifiers the calls give out are pairwise distinct, in particular when no call
supplies an id and no two calls read the same clock value. -/
theorem ids_unique_iff_fresh (ops : List StoreOp) (today : JSDate) :
    ((∀ k : Nat, (storeIds (runOps (ops.take k) (CalendarApp.empty today))).Nodup) ↔
      freshAdds ops (CalendarApp.empty today) = true) ∧
    (freshAdds ops (CalendarApp.empty today) = true →
      (storeIds (runOps ops (CalendarApp.empty today))).Nodup) ∧
    ((addIds ops).Nodup → freshAdds ops (CalendarApp.empty today) = true) ∧
    ((∀ op ∈ ops, suppliesNoId op = true) → (addClocks ops).Nodup →
      freshAdds ops (CalendarApp.empty today) = true) := by
  have h0 : storeIds (CalendarApp.empty today) = [] := rfl
  have hn : (storeIds (CalendarApp.empty today)).Nodup := by
    rw [h0]
    exact List.nodup_nil
  have hiff := nodup_prefixes_iff_freshAdds ops (CalendarApp.empty today) hn
  have hadd : (addIds ops).Nodup → freshAdds ops (CalendarApp.empty today) = true := by
    intro h
    apply freshAdds_of_addIds_nodup
    rw [h0, List.nil_append]
    exact h
  refine ⟨hiff, ?_, hadd, ?_⟩
  · intro hf
    have h := hiff.2 hf ops.length
    rwa [List.take_length] at h
  · intro hid hclock
    apply hadd
    rw [addIds_of_no_id ops hid]
    exact List.Nodup.map (fun _ _ h => toString_nat_injective h) hclock

/-- C9 (amended), on calls that supply the ids "a" and "b", leave one id to the
clock, delete "a" and add "a" again: every `addEvent` call gives an identifier
the store does not have, although "a" is given out twice, and the store ends
with the distinct ids "b", "1000" and "a". -/
theorem ids_unique_iff_fresh_witness :
    freshAdds suppliedIdOps (CalendarApp.empty (newDate 2024 1 1)) = true ∧
      ¬(addIds suppliedIdOps).Nodup ∧
      storeIds (runOps suppliedIdOps (CalendarApp.empty (newDate 2024 1 1))) =
        ["b", "1000", "a"] ∧
      (storeIds (runOps suppliedIdOps (CalendarApp.empty (newDate 2024 1 1)))).Nodup :=
  ⟨by decide, by decide, by decide,
    (ids_unique_iff_fresh suppliedIdOps (newDate 2024 1 1)).2.1 (by decide)⟩

end Calendar
